import Mathlib

/-!
# QUIC loss-recovery and congestion-control core: a shallow embedding

This file is a shallow embedding, in Lean 4, of the QUIC ACK handling,
RTT sampling, loss detection, NewReno congestion control and probe-timeout
code of `src/event/quic/njt_event_quic_ack.c`, together with theorems
checking the natural-language specification of that code.

Modelling conventions:

* `njt_msec_t` and `uint64_t` values are modelled as `Nat`, representing the
  64-bit machine value.  Where the C code relies on unsigned wrap-around
  (subtractions that are then cast to the signed `njt_msec_int_t`), the
  wrap is made explicit through `wsub` (subtraction modulo `2^64`) and
  `toSigned` (reinterpretation of a 64-bit value as a signed integer).
  Additions of millisecond durations, window sizes and packet numbers never
  approach `2^64` in any reachable execution, so they are kept as plain
  `Nat` additions; theorems that depend on the signed-cast comparisons take
  explicit smallness hypotheses.
* The sentinels `NJT_TIMER_INFINITE` and `NJT_QUIC_UNSET_PN` are both the
  all-ones 64-bit value; they are modelled as the constant `INFTY`.
* Doubly-linked frame queues (`njt_queue_t`) are modelled as `List Frame`,
  ordered head first, exactly as the C code iterates them.
* External collaborators that live outside this translation unit
  (`njt_quic_handle_path_mtu`, `njt_quic_handle_stream_ack`,
  `njt_quic_queue_frame`, `njt_quic_frame_sendto`, `njt_quic_alloc_frame`)
  are modelled from the spec's interface section: see the doc comments on
  the corresponding definitions.
-/

/-- `2^64`, the modulus of the C `uint64_t` / `njt_msec_t` arithmetic. -/
def W64 : Nat := 18446744073709551616

/-- The all-ones 64-bit value: `NJT_TIMER_INFINITE` and `NJT_QUIC_UNSET_PN`. -/
def INFTY : Nat := W64 - 1

/-- Unsigned 64-bit subtraction `a - b` (mod `2^64`), as C computes it for
`uint64_t` operands.  Correct for any `a : Nat` and `b < 2^64` representing
the machine values. -/
def wsub (a b : Nat) : Nat := (a + W64 - b % W64) % W64

/-- Reinterpret a 64-bit unsigned value as the signed `njt_msec_int_t`. -/
def toSigned (x : Nat) : Int :=
  if x % W64 < 2 ^ 63 then (x % W64 : Int) else (x % W64 : Int) - (W64 : Int)

/-- Encryption levels; each owns one send context (`njt_quic_send_ctx_t`).
The iteration order `initial, handshake, application` matches the C array
`qc->send_ctx[0..2]`. -/
inductive Level where
  | initial
  | handshake
  | application
deriving DecidableEq

/-- QUIC frame types, restricted to the constructors this core distinguishes;
`ftCrypto` stands for every type that falls into the `default` resend case. -/
inductive FrameType where
  | ftAck
  | ftAckEcn
  | ftPing
  | ftPathChallenge
  | ftPathResponse
  | ftConnectionClose
  | ftMaxData
  | ftMaxStreams
  | ftMaxStreams2
  | ftMaxStreamData
  | ftStream
  | ftResetStream
  | ftCrypto
deriving DecidableEq

/-- Stream send states (the two reset states decide STREAM-frame resend). -/
inductive StreamSendState where
  | ready
  | send
  | dataSent
  | resetSent
  | resetRecvd
deriving DecidableEq

/-- The slice of `njt_quic_stream_t` that this core reads. -/
structure StreamInfo where
  send_state : StreamSendState
  recv_max_data : Nat
deriving DecidableEq

/-- The slice of `qc->streams` that this core reads: current credit limits
and the stream tree (modelled as an association list keyed by stream id). -/
structure StreamsState where
  recv_max_data : Nat
  client_max_streams_bidi : Nat
  client_max_streams_uni : Nat
  tree : List (Nat × StreamInfo)
deriving DecidableEq

/-- `njt_quic_find_stream`: lookup in the stream tree by id. -/
def find_stream (s : StreamsState) (id : Nat) : Option StreamInfo :=
  (s.tree.find? (fun p => p.1 = id)).map (fun p => p.2)

/-- A sent-frame record (`njt_quic_frame_t`), restricted to the fields this
core reads: `pnum`, `send_time`, `plen`, `level`, `type`,
`ignore_congestion`, and the payload fields used during ACK removal and
resend (`u.ack.largest`, the MAX_* limit value, `u.max_streams.bidi`,
the stream id). -/
structure Frame where
  pnum : Nat
  send_time : Nat
  plen : Nat
  level : Level
  type : FrameType
  ignore_congestion : Bool
  largest : Nat
  limitVal : Nat
  bidi : Bool
  stream_id : Nat
deriving DecidableEq

/-- Per-level send context (`njt_quic_send_ctx_t`): in-flight queue `sent`,
pending output queue `frames`, next packet number `pnum`, `largest_ack`
(`INFTY` = `NJT_QUIC_UNSET_PN`), and the receiver-side ACK range database. -/
structure SendCtx where
  sent : List Frame
  frames : List Frame
  pnum : Nat
  largest_ack : Nat
  send_ack : Nat
  largest_range : Nat
  first_range : Nat
  ranges : List (Nat × Nat)
  pending_ack : Nat
  ack_delay_start : Nat
  largest_received : Nat
deriving DecidableEq

/-- NewReno congestion state (`njt_quic_congestion_t`). -/
structure Congestion where
  window : Nat
  ssthresh : Nat
  in_flight : Nat
  recovery_start : Nat
deriving DecidableEq

/-- Connection-level error codes this core can record in `qc->error`. -/
inductive QuicError where
  | frameEncodingError
  | protocolViolation
deriving DecidableEq

/-- Which handler the single loss/PTO timer is armed with. -/
inductive TimerKind where
  | lostTimer
  | ptoTimer
deriving DecidableEq

/-- Send times of ACK'ed packets (`njt_quic_ack_stat_t`); `INFTY` means
"no sample". -/
structure AckStat where
  max_pn : Nat
  oldest : Nat
  newest : Nat
deriving DecidableEq

/-- A decoded ACK frame (`njt_quic_ack_frame_t`): `largest`, `delay`,
`first_range` and the already-parsed `(gap, range)` pairs.  The wire parsing
(`njt_quic_parse_ack_range`) happens outside this core; `range_count` is
`ranges.length`. -/
structure AckFrame where
  largest : Nat
  delay : Nat
  first_range : Nat
  ranges : List (Nat × Nat)
deriving DecidableEq

/-- The connection state this core reads and mutates
(`njt_quic_connection_t` plus `c->ssl->handshaked`): three send contexts,
the RTT estimators, the congestion state, peer (`ctp`) and local (`tp`)
transport parameters, the error fields, the posted-event / timer state of
`qc->push` and `qc->pto`, and a log `emitted` of frames passed to
`njt_quic_frame_sendto`. -/
structure QuicConn where
  ctx_initial : SendCtx
  ctx_handshake : SendCtx
  ctx_application : SendCtx
  latest_rtt : Nat
  min_rtt : Nat
  avg_rtt : Nat
  rttvar : Nat
  first_rtt : Nat
  pto_count : Nat
  rst_pnum : Nat
  congestion : Congestion
  ack_delay_exponent : Nat
  max_ack_delay : Nat
  max_udp_payload_size : Nat
  max_idle_timeout : Nat
  handshaked : Bool
  closing : Bool
  error : Option QuicError
  error_ftype : Option FrameType
  error_reason : Option String
  push_posted : Bool
  push_timer_set : Bool
  streams : StreamsState
  timer : Option (TimerKind × Nat)
  emitted : List Frame
deriving DecidableEq

/-- `njt_quic_get_send_ctx`. -/
def getCtx (qc : QuicConn) : Level → SendCtx
  | .initial => qc.ctx_initial
  | .handshake => qc.ctx_handshake
  | .application => qc.ctx_application

/-- Replace one send context. -/
def setCtx (qc : QuicConn) : Level → SendCtx → QuicConn
  | .initial, c => { qc with ctx_initial := c }
  | .handshake, c => { qc with ctx_handshake := c }
  | .application, c => { qc with ctx_application := c }

/-- `njt_quic_lost_threshold`:
`thr = max(latest_rtt, avg_rtt); thr += thr >> 3; return max(thr, 1)`. -/
def lost_threshold (qc : QuicConn) : Nat :=
  let thr := max qc.latest_rtt qc.avg_rtt
  max (thr + thr / 8) 1

/-- `njt_quic_rtt_sample`.  `now` is `njt_current_msec`, `delay` the ACK
frame's Ack Delay field, `send_time` the send time of the largest newly
acknowledged packet. -/
def rtt_sample (qc : QuicConn) (now delay send_time : Nat) : QuicConn :=
  let latest_rtt := wsub now send_time
  let qc := { qc with latest_rtt := latest_rtt }
  if qc.min_rtt = INFTY then
    { qc with
        min_rtt := latest_rtt
        avg_rtt := latest_rtt
        rttvar := latest_rtt / 2
        first_rtt := now }
  else
    let min_rtt := min qc.min_rtt latest_rtt
    let ack_delay := ((delay <<< qc.ack_delay_exponent) % W64) / 1000
    let ack_delay := if qc.handshaked then min ack_delay qc.max_ack_delay else ack_delay
    let adjusted_rtt :=
      if min_rtt + ack_delay < latest_rtt then latest_rtt - ack_delay else latest_rtt
    let rttvar_sample := (toSigned (wsub qc.avg_rtt adjusted_rtt)).natAbs
    { qc with
        min_rtt := min_rtt
        rttvar := qc.rttvar + rttvar_sample / 4 - qc.rttvar / 4
        avg_rtt := qc.avg_rtt + adjusted_rtt / 8 - qc.avg_rtt / 8 }

/-- `njt_quic_congestion_ack`.  `now` is `njt_current_msec` (read in the
`recovery_start` wrap guard). -/
def congestion_ack (qc : QuicConn) (now : Nat) (f : Frame) : QuicConn :=
  if f.plen = 0 then qc
  else if f.pnum < qc.rst_pnum then qc
  else
    let cg := qc.congestion
    let blocked : Bool := decide (cg.window ≤ cg.in_flight)
    let cg := { cg with in_flight := wsub cg.in_flight f.plen }
    let cg : Congestion :=
      if toSigned (wsub f.send_time cg.recovery_start) ≤ 0 then cg
      else
        let cg : Congestion :=
          if cg.window < cg.ssthresh then
            { cg with window := cg.window + f.plen }
          else
            { cg with window := cg.window + qc.max_udp_payload_size * f.plen / cg.window }
        if toSigned (wsub (cg.recovery_start + qc.max_idle_timeout * 2) now) < 0 then
          { cg with recovery_start := wsub now (qc.max_idle_timeout * 2) }
        else cg
    let qc' := { qc with congestion := cg }
    if blocked && decide (cg.in_flight < cg.window) then { qc' with push_posted := true }
    else qc'

/-- Inner loop of `njt_quic_drop_ack_ranges`: walk `ranges`, keeping rows
until `pn` truncates them. -/
def dropRangesGo (pn : Nat) : Nat → List (Nat × Nat) → List (Nat × Nat)
  | _, [] => []
  | smallest, (gap, range) :: rest =>
    let largest := wsub smallest (gap + 2)
    let smallest' := wsub largest range
    if largest ≤ pn then []
    else if smallest' ≤ pn then [(gap, wsub largest pn - 1)]
    else (gap, range) :: dropRangesGo pn smallest' rest

/-- `njt_quic_drop_ack_ranges`: forget receiver-side ACK ranges at or below
`pn` after the peer acknowledged an ACK frame with largest = `pn`. -/
def drop_ack_ranges (ctx : SendCtx) (pn : Nat) : SendCtx :=
  let base := ctx.largest_range
  if base = INFTY then ctx
  else
    let ctx :=
      if ctx.pending_ack ≠ INFTY ∧ ctx.pending_ack ≤ pn then
        { ctx with pending_ack := INFTY }
      else ctx
    let largest := base
    let smallest := wsub largest ctx.first_range
    if largest ≤ pn then
      { ctx with largest_range := INFTY, first_range := 0, ranges := [] }
    else if smallest ≤ pn then
      { ctx with first_range := wsub largest pn - 1, ranges := [] }
    else
      { ctx with ranges := dropRangesGo pn smallest ctx.ranges }

/-- Modelled from the spec: `handle_stream_ack(frame)` is an external
collaborator ("stream-level credit return", spec section 6).  Its effect is
on stream state outside this core, so it is the identity here. -/
def handle_stream_ack (qc : QuicConn) (_f : Frame) : QuicConn := qc

/-- Modelled from the spec: `handle_path_mtu(path, min, max)` is an external
collaborator ("invoked once per ACK range at application level", spec
section 6).  Its effect is on path state outside this core, so it is the
identity here. -/
def handle_path_mtu (qc : QuicConn) (_min _max : Nat) : QuicConn := qc

/-- The per-removed-frame bookkeeping of `njt_quic_handle_ack_frame_range`:
congestion-ack hook, then per-type hooks (ACK-range bookkeeping for acked
ACK frames, stream-ack hook for STREAM / RESET_STREAM). -/
def rangeAckStep (lvl : Level) (now : Nat) (qc : QuicConn) (f : Frame) : QuicConn :=
  let qc := congestion_ack qc now f
  match f.type with
  | .ftAck | .ftAckEcn => setCtx qc lvl (drop_ack_ranges (getCtx qc lvl) f.largest)
  | .ftStream | .ftResetStream => handle_stream_ack qc f
  | _ => qc

/-- The removal walk of `njt_quic_handle_ack_frame_range`: traverse `sent`
head first; stop at the first frame with `pnum > max`; remove every frame
with `min ≤ pnum ≤ max`, running the congestion-ack hook, the ACK-range
bookkeeping and the stream-ack hook, and recording send times in `st`.
Returns the connection, the new `sent` list, the stat and the `found` flag. -/
def rangeAckGo (lvl : Level) (now min max : Nat) :
    QuicConn → List Frame → AckStat → Bool →
    QuicConn × List Frame × AckStat × Bool
  | qc, [], st, found => (qc, [], st, found)
  | qc, f :: rest, st, found =>
    if max < f.pnum then (qc, f :: rest, st, found)
    else if min ≤ f.pnum then
      let qc := rangeAckStep lvl now qc f
      let st := if f.pnum = max then { st with max_pn := f.send_time } else st
      let st :=
        if st.oldest = INFTY ∨ f.send_time < st.oldest then
          { st with oldest := f.send_time }
        else st
      let st :=
        if st.newest = INFTY ∨ st.newest < f.send_time then
          { st with newest := f.send_time }
        else st
      rangeAckGo lvl now min max qc rest st true
    else
      let (qc', rest', st', found') := rangeAckGo lvl now min max qc rest st found
      (qc', f :: rest', st', found')

/-- Result of `njt_quic_handle_ack_frame_range`: `NJT_OK` with the updated
connection and stat, or `NJT_ERROR` with the updated connection (which
records the error). -/
inductive RangeRes where
  | rok (qc : QuicConn) (st : AckStat)
  | rerr (qc : QuicConn)
deriving DecidableEq

/-- `njt_quic_handle_ack_frame_range`. -/
def handle_ack_frame_range (qc : QuicConn) (lvl : Level) (now min max : Nat)
    (st : AckStat) : RangeRes :=
  let qc := if lvl = .application then handle_path_mtu qc min max else qc
  let st := { st with max_pn := INFTY }
  let res := rangeAckGo lvl now min max qc (getCtx qc lvl).sent st false
  let qc := setCtx res.1 lvl { getCtx res.1 lvl with sent := res.2.1 }
  let st := res.2.2.1
  let found := res.2.2.2
  if found = false then
    if max < (getCtx qc lvl).pnum then .rok qc st
    else
      .rerr { qc with
                error := some .protocolViolation
                error_ftype := some .ftAck
                error_reason := some "unknown packet number" }
  else
    let qc := if qc.push_timer_set = false then { qc with push_posted := true } else qc
    .rok { qc with pto_count := 0 } st

/-- `njt_quic_pcg_duration`. -/
def pcg_duration (qc : QuicConn) : Nat :=
  (qc.avg_rtt + max (4 * qc.rttvar) 1 + qc.max_ack_delay) * 3

/-- `njt_quic_persistent_congestion`. -/
def persistent_congestion (qc : QuicConn) (now : Nat) : QuicConn :=
  { qc with
      congestion := { qc.congestion with
                        recovery_start := now
                        window := qc.max_udp_payload_size * 2 } }

/-- `njt_quic_congestion_lost`.  Returns the connection and the frame as
left by the call (the C code zeroes `f->plen` through the pointer when the
loss is counted). -/
def congestion_lost_f (qc : QuicConn) (now : Nat) (f : Frame) : QuicConn × Frame :=
  if f.plen = 0 then (qc, f)
  else if f.pnum < qc.rst_pnum then (qc, f)
  else
    let cg := qc.congestion
    let blocked : Bool := decide (cg.window ≤ cg.in_flight)
    let cg := { cg with in_flight := wsub cg.in_flight f.plen }
    let f := { f with plen := 0 }
    let cg : Congestion :=
      if toSigned (wsub f.send_time cg.recovery_start) ≤ 0 then cg
      else
        let w := Nat.max (cg.window / 2) (qc.max_udp_payload_size * 2)
        { cg with recovery_start := now, window := w, ssthresh := w }
    let qc' := { qc with congestion := cg }
    if blocked && decide (cg.in_flight < cg.window) then ({ qc' with push_posted := true }, f)
    else (qc', f)

/-- Modelled from the spec: `njt_quic_queue_frame` lives outside this
translation unit; per spec section 4.C a resent frame is "re-queued at the
tail of `frames`", matching the in-file `default` case which inserts at the
tail of `ctx->frames`. -/
def queue_frame (qc : QuicConn) (lvl : Level) (f : Frame) : QuicConn :=
  setCtx qc lvl { getCtx qc lvl with frames := (getCtx qc lvl).frames ++ [f] }

/-- One iteration of the resend switch of `njt_quic_resend_frames`: the
per-type fate of a frame removed from `sent` on loss. -/
def resendOne (lvl : Level) (qc : QuicConn) (f : Frame) : QuicConn :=
  match f.type with
  | .ftAck | .ftAckEcn =>
    if lvl = .application then
      setCtx qc lvl { getCtx qc lvl with send_ack := 2 }
    else qc
  | .ftPing | .ftPathChallenge | .ftPathResponse | .ftConnectionClose => qc
  | .ftMaxData =>
    queue_frame qc lvl { f with limitVal := qc.streams.recv_max_data }
  | .ftMaxStreams | .ftMaxStreams2 =>
    queue_frame qc lvl
      { f with limitVal :=
          if f.bidi then qc.streams.client_max_streams_bidi
          else qc.streams.client_max_streams_uni }
  | .ftMaxStreamData =>
    match find_stream qc.streams f.stream_id with
    | none => qc
    | some qs => queue_frame qc lvl { f with limitVal := qs.recv_max_data }
  | .ftStream =>
    match find_stream qc.streams f.stream_id with
    | some qs =>
      if qs.send_state = .resetSent ∨ qs.send_state = .resetRecvd then qc
      else queue_frame qc lvl f
    | none => queue_frame qc lvl f
  | _ => queue_frame qc lvl f

/-- `njt_quic_resend_frames`: declare the head packet of `ctx->sent` lost.
Runs the congestion-lost hook once on the first frame, then removes every
frame sharing its `pnum`, freeing or re-queueing each per the switch, and
finally posts `push` unless closing. -/
def resend_frames (qc : QuicConn) (lvl : Level) (now : Nat) : QuicConn :=
  match (getCtx qc lvl).sent with
  | [] => qc
  | start :: rest =>
    let pnum := start.pnum
    let res := congestion_lost_f qc now start
    let group := res.2 :: rest.takeWhile (fun f => f.pnum = pnum)
    let remaining := rest.dropWhile (fun f => f.pnum = pnum)
    let qc := setCtx res.1 lvl { getCtx res.1 lvl with sent := remaining }
    let qc := group.foldl (resendOne lvl) qc
    if qc.closing then qc else { qc with push_posted := true }

/-- Accumulated loss statistics of `njt_quic_detect_lost` (`nlost`,
`oldest`, `newest`; the send-time fields use the `INFTY` sentinel). -/
structure LossAcc where
  nlost : Nat
  oldest : Nat
  newest : Nat
deriving DecidableEq

/-- The per-context while loop of `njt_quic_detect_lost`.  `fuel` bounds the
number of iterations; every iteration removes at least one frame from
`sent`, so `fuel = sent.length` makes the loop semantics exact. -/
def detectCtxGo (lvl : Level) (now thr : Nat) :
    Nat → QuicConn → LossAcc → QuicConn × LossAcc
  | 0, qc, acc => (qc, acc)
  | Nat.succ fuel, qc, acc =>
    match (getCtx qc lvl).sent with
    | [] => (qc, acc)
    | start :: _ =>
      let la := (getCtx qc lvl).largest_ack
      if la < start.pnum then (qc, acc)
      else if 0 < toSigned (wsub (start.send_time + thr) now) ∧ la - start.pnum < 3 then
        (qc, acc)
      else
        let acc :=
          if qc.first_rtt < start.send_time then
            { nlost := acc.nlost + 1
              oldest :=
                if acc.oldest = INFTY ∨ start.send_time < acc.oldest then start.send_time
                else acc.oldest
              newest :=
                if acc.newest = INFTY ∨ acc.newest < start.send_time then start.send_time
                else acc.newest }
          else acc
        detectCtxGo lvl now thr fuel (resend_frames qc lvl now) acc

/-- One context of the `njt_quic_detect_lost` scan: skip the context when
`largest_ack` is unset, otherwise run the while loop. -/
def detectOne (lvl : Level) (now thr : Nat) (p : QuicConn × LossAcc) :
    QuicConn × LossAcc :=
  if (getCtx p.1 lvl).largest_ack = INFTY then p
  else detectCtxGo lvl now thr (getCtx p.1 lvl).sent.length p.1 p.2

/-- The loss scan of `njt_quic_detect_lost` over the three send contexts. -/
def detectWalk (qc : QuicConn) (now : Nat) : QuicConn × LossAcc :=
  let thr := lost_threshold qc
  detectOne .application now thr
    (detectOne .handshake now thr
      (detectOne .initial now thr (qc, { nlost := 0, oldest := INFTY, newest := INFTY })))

/-- `njt_quic_pto`. -/
def pto (qc : QuicConn) (lvl : Level) : Nat :=
  let duration := qc.avg_rtt + max (4 * qc.rttvar) 1
  if lvl = .application ∧ qc.handshaked then duration + qc.max_ack_delay else duration

/-- Lost-timer candidate of one context in `njt_quic_set_lost_timer`. -/
def lostTimeCtx (qc : QuicConn) (now thr : Nat) (lvl : Level) : Option Nat :=
  match (getCtx qc lvl).sent with
  | [] => none
  | f :: _ =>
    let ctx := getCtx qc lvl
    if ctx.largest_ack ≠ INFTY ∧ f.pnum ≤ ctx.largest_ack then
      let w := toSigned (wsub (f.send_time + thr) now)
      some (if w < 0 ∨ 3 ≤ ctx.largest_ack - f.pnum then 0 else w.toNat)
    else none

/-- PTO-timer candidate of one context in `njt_quic_set_lost_timer` /
`njt_quic_pto_handler`: deadline of the last sent frame under exponential
backoff. -/
def ptoTimeCtx (qc : QuicConn) (now : Nat) (lvl : Level) : Option Nat :=
  match (getCtx qc lvl).sent.getLast? with
  | none => none
  | some f =>
    let w := toSigned (wsub (f.send_time + (pto qc lvl <<< qc.pto_count) % W64) now)
    some (if w < 0 then 0 else w.toNat)

/-- Minimum of two optional candidates (the `-1` sentinel folds of C). -/
def omin : Option Nat → Option Nat → Option Nat
  | none, b => b
  | some a, none => some a
  | some a, some b => some (min a b)

/-- `njt_quic_set_lost_timer`: arm the lost timer at the earliest lost
candidate; if none, arm the PTO timer at the earliest PTO candidate; if
none, leave the timer unset.  Lost takes precedence over PTO. -/
def set_lost_timer (qc : QuicConn) (now : Nat) : QuicConn :=
  let thr := lost_threshold qc
  let lost :=
    omin (omin (lostTimeCtx qc now thr .initial) (lostTimeCtx qc now thr .handshake))
      (lostTimeCtx qc now thr .application)
  let p :=
    omin (omin (ptoTimeCtx qc now .initial) (ptoTimeCtx qc now .handshake))
      (ptoTimeCtx qc now .application)
  match lost with
  | some l => { qc with timer := some (.lostTimer, l) }
  | none =>
    match p with
    | some w => { qc with timer := some (.ptoTimer, w) }
    | none => { qc with timer := none }

/-- `njt_quic_detect_lost`: loss scan, persistent-congestion check, timer
rescheduling.  `st` is the ack-stat argument (`NULL` from the lost-timer
handler is `none`). -/
def detect_lost (qc : QuicConn) (now : Nat) (st : Option AckStat) : QuicConn :=
  let res := detectWalk qc now
  let qc := res.1
  let acc := res.2
  let qc :=
    match st with
    | some s =>
      if 2 ≤ acc.nlost ∧ (s.newest < acc.oldest ∨ acc.newest < s.oldest) then
        if pcg_duration qc < wsub acc.newest acc.oldest then persistent_congestion qc now
        else qc
      else qc
    | none => qc
  set_lost_timer qc now

/-- Result of `njt_quic_handle_ack_frame`: `NJT_OK` or `NJT_ERROR`, each
with the connection as left by the call. -/
inductive HandleRes where
  | hok (qc : QuicConn)
  | herr (qc : QuicConn)
deriving DecidableEq

/-- The per-range loop of `njt_quic_handle_ack_frame`: validate each
`(gap, range)` pair against the running `min`, then ack the derived range. -/
def handleAckLoop (lvl : Level) (now : Nat) :
    QuicConn → AckStat → Nat → List (Nat × Nat) → HandleRes
  | qc, st, _, [] => .hok (detect_lost qc now (some st))
  | qc, st, min, (gap, range) :: rest =>
    if min < gap + 2 then .herr { qc with error := some .frameEncodingError }
    else
      let max := min - gap - 2
      if max < range then .herr { qc with error := some .frameEncodingError }
      else
        match handle_ack_frame_range qc lvl now (max - range) max st with
        | .rerr qc => .herr qc
        | .rok qc st => handleAckLoop lvl now qc st (max - range) rest

/-- `njt_quic_handle_ack_frame`. -/
def handle_ack_frame (qc : QuicConn) (lvl : Level) (now : Nat) (ack : AckFrame) :
    HandleRes :=
  if ack.largest < ack.first_range then
    .herr { qc with error := some .frameEncodingError }
  else
    let mn := ack.largest - ack.first_range
    let mx := ack.largest
    let st : AckStat := { max_pn := INFTY, oldest := INFTY, newest := INFTY }
    match handle_ack_frame_range qc lvl now mn mx st with
    | .rerr qc => .herr qc
    | .rok qc st =>
      let qc :=
        if (getCtx qc lvl).largest_ack < mx ∨ (getCtx qc lvl).largest_ack = INFTY then
          let qc := setCtx qc lvl { getCtx qc lvl with largest_ack := mx }
          if st.max_pn ≠ INFTY then rtt_sample qc now ack.delay st.max_pn else qc
        else qc
      handleAckLoop lvl now qc st mn ack.ranges

/-- The PING probe emitted by `njt_quic_pto_handler`: a freshly allocated
frame with `level`, `type = PING` and `ignore_congestion = 1` set. -/
def pingFrame (lvl : Level) : Frame :=
  { pnum := 0, send_time := 0, plen := 0, level := lvl, type := .ftPing,
    ignore_congestion := true, largest := 0, limitVal := 0, bidi := false,
    stream_id := 0 }

/-- Modelled from the spec: `njt_quic_frame_sendto` ("emit a frame
immediately", spec section 6) is an external collaborator; its effect is
recorded in the `emitted` log. -/
def frame_sendto (qc : QuicConn) (f : Frame) : QuicConn :=
  { qc with emitted := qc.emitted ++ [f] }

/-- Due-context test of `njt_quic_pto_handler`: the context has sent frames,
is not fully acknowledged, and the PTO deadline of its last sent frame has
passed. -/
def ptoCtxDue (qc : QuicConn) (now : Nat) (lvl : Level) : Bool :=
  match (getCtx qc lvl).sent.getLast? with
  | none => false
  | some f =>
    let ctx := getCtx qc lvl
    let w := toSigned (wsub (f.send_time + (pto qc lvl <<< qc.pto_count) % W64) now)
    if f.pnum ≤ ctx.largest_ack ∧ ctx.largest_ack ≠ INFTY then false
    else decide (w ≤ 0)

/-- The context loop of `njt_quic_pto_handler`.  `budget` is the number of
frame allocations (`njt_quic_alloc_frame`) that will still succeed; probe
emission costs two allocations per due context, and an allocation failure
aborts the handler (`none`, leading to connection close). -/
def ptoLoop (now : Nat) : QuicConn → Nat → List Level → Option (QuicConn × Nat)
  | qc, budget, [] => some (qc, budget)
  | qc, budget, lvl :: rest =>
    if ptoCtxDue qc now lvl then
      match budget with
      | 0 => none
      | 1 => none
      | Nat.succ (Nat.succ b) =>
        ptoLoop now (frame_sendto (frame_sendto qc (pingFrame lvl)) (pingFrame lvl)) b rest
    else ptoLoop now qc budget rest

/-- Result of `njt_quic_pto_handler`: the handler either completes with an
updated connection or closes the connection (allocation failure). -/
inductive PtoRes where
  | pok (qc : QuicConn)
  | pclosed
deriving DecidableEq

/-- `njt_quic_pto_handler`. -/
def pto_handler (qc : QuicConn) (now : Nat) (budget : Nat) : PtoRes :=
  match ptoLoop now qc budget [Level.initial, Level.handshake, Level.application] with
  | none => .pclosed
  | some (qc, _) =>
    .pok (set_lost_timer { qc with pto_count := qc.pto_count + 1 } now)

/-! ## Concrete states used by witnesses and counterexamples -/

/-- A generic congestion-controlled frame for concrete test states. -/
def mkFrame (pn t pl : Nat) : Frame :=
  { pnum := pn, send_time := t, plen := pl, level := .application, type := .ftCrypto,
    ignore_congestion := false, largest := 0, limitVal := 0, bidi := false,
    stream_id := 0 }

/-- An empty send context in its initial state. -/
def emptyCtx : SendCtx :=
  { sent := [], frames := [], pnum := 0, largest_ack := INFTY, send_ack := 0,
    largest_range := INFTY, first_range := 0, ranges := [], pending_ack := INFTY,
    ack_delay_start := 0, largest_received := 0 }

/-- A quiescent connection: empty contexts, no RTT samples yet, initial
congestion state (`window = 10 * max_udp_payload_size`, `ssthresh` unset). -/
def baseConn : QuicConn :=
  { ctx_initial := emptyCtx, ctx_handshake := emptyCtx, ctx_application := emptyCtx,
    latest_rtt := 0, min_rtt := INFTY, avg_rtt := 0, rttvar := 0, first_rtt := 0,
    pto_count := 0, rst_pnum := 0,
    congestion := { window := 12000, ssthresh := INFTY, in_flight := 0,
                    recovery_start := 0 },
    ack_delay_exponent := 0, max_ack_delay := 25, max_udp_payload_size := 1200,
    max_idle_timeout := 60000, handshaked := false, closing := false,
    error := none, error_ftype := none, error_reason := none,
    push_posted := false, push_timer_set := false,
    streams := { recv_max_data := 0, client_max_streams_bidi := 0,
                 client_max_streams_uni := 0, tree := [] },
    timer := none, emitted := [] }

/-- Witness state for the loss-detection claims: three in-flight packets at
the application level, `largest_ack = 5`. -/
def c1conn : QuicConn :=
  { baseConn with
      ctx_application := { emptyCtx with
        sent := [mkFrame 0 10 1200, mkFrame 1 10 1200, mkFrame 5 100 1200],
        pnum := 6, largest_ack := 5 } }

/-- Two PING probes per due level, in handler order. -/
def pingPairs : List Level → List Frame
  | [] => []
  | l :: rest => pingFrame l :: pingFrame l :: pingPairs rest

/-- The levels the PTO handler finds due, in its iteration order. -/
def dueLevels (qc : QuicConn) (now : Nat) : List Level :=
  [Level.initial, Level.handshake, Level.application].filter
    (fun l => ptoCtxDue qc now l)

/-- Emission log of a PTO handler run, `none` when it closed the connection. -/
def pres_emitted : PtoRes → Option (List Frame)
  | .pok q => some q.emitted
  | .pclosed => none

/-- State with two PTO-due send contexts (initial and handshake). -/
def c7conn : QuicConn :=
  { baseConn with
      ctx_initial := { emptyCtx with sent := [mkFrame 0 0 100], pnum := 1 },
      ctx_handshake := { emptyCtx with sent := [mkFrame 0 0 100], pnum := 1 } }

/-- The `rttvar` update equation exactly as the specification words it,
`rttvar += (|avg_rtt - adjusted| - rttvar) / 4`, reading `/` as C integer
division (truncation toward zero); `sample = |avg_rtt - adjusted_rtt|`. -/
def specRttvarUpdate (rttvar sample : Nat) : Int :=
  (rttvar : Int) + Int.tdiv ((sample : Int) - (rttvar : Int)) 4

/-- The same specification equation under the alternative floor-division
reading of `/`. -/
def specRttvarFloor (rttvar sample : Nat) : Int :=
  (rttvar : Int) + Int.fdiv ((sample : Int) - (rttvar : Int)) 4

/-- Subsequent-RTT-sample state: `min_rtt = 1`, `avg_rtt = 10`,
`rttvar = 5`. -/
def c4conn : QuicConn :=
  { baseConn with min_rtt := 1, avg_rtt := 10, rttvar := 5 }

/-- Subsequent-RTT-sample state: `min_rtt = 1`, `avg_rtt = 10`,
`rttvar = 6`. -/
def c4conn2 : QuicConn :=
  { baseConn with min_rtt := 1, avg_rtt := 10, rttvar := 6 }

/-- The ACK-delay value as the specification words it:
`(ack.delay << ctp.ack_delay_exponent) / 1000`, capped to
`ctp.max_ack_delay` once the handshake is confirmed. -/
def ackDelayOf (qc : QuicConn) (delay : Nat) : Nat :=
  let ad := (delay <<< qc.ack_delay_exponent) / 1000
  if qc.handshaked then min ad qc.max_ack_delay else ad

/-- The adjusted RTT as the specification words it:
`adjusted = latest - ack_delay` exactly when `min_rtt + ack_delay < latest`
(with `min_rtt` already updated by the sample). -/
def adjustedRtt (qc : QuicConn) (now delay t0 : Nat) : Nat :=
  let latest := now - t0
  let mn := min qc.min_rtt latest
  let ad := ackDelayOf qc delay
  if mn + ad < latest then latest - ad else latest

/-- Connection half of a `handle_ack_frame_range` result. -/
def rres_conn : RangeRes → QuicConn
  | .rok q _ => q
  | .rerr q => q

/-- Whether a `handle_ack_frame_range` result is `NJT_OK`. -/
def rres_ok : RangeRes → Bool
  | .rok _ _ => true
  | .rerr _ => false

/-- The all-unset ack stat, as `njt_quic_handle_ack_frame` initializes it. -/
def ackStat0 : AckStat := { max_pn := INFTY, oldest := INFTY, newest := INFTY }

/-- State whose `push` event is armed as a (delayed-ACK) timer, with one
in-flight packet. -/
def c6conn : QuicConn :=
  { baseConn with
      ctx_application := { emptyCtx with sent := [mkFrame 1 10 0], pnum := 2 },
      push_timer_set := true, pto_count := 7 }

/-- Invariant of the loss statistics accumulated by the `detect_lost` walk:
either nothing was recorded yet, or `oldest ≤ newest` and both are genuine
timestamps. -/
def accInv (acc : LossAcc) : Prop :=
  (acc.oldest = INFTY ∧ acc.newest = INFTY ∧ acc.nlost = 0) ∨
  (acc.oldest ≤ acc.newest ∧ acc.newest < 2 ^ 62)

/-- Persistent-congestion scenario: two lost packets spanning 200 ms with
`pcg_duration = (10 + 1 + 25) * 3 = 108`. -/
def c3conn : QuicConn :=
  { baseConn with
      avg_rtt := 10, rttvar := 0, first_rtt := 50,
      ctx_application := { emptyCtx with
        sent := [mkFrame 0 100 0, mkFrame 1 300 0],
        pnum := 11, largest_ack := 10 } }

/-- An ack-range span disjoint from the lost span of `c3conn`. -/
def s3stat : AckStat := { max_pn := 0, oldest := 400, newest := 500 }

/-- The congestion-counted bytes of one sent frame: `plen` when
`pnum ≥ rst_pnum`, else 0. -/
def countedPlen (rst : Nat) (f : Frame) : Nat :=
  if rst ≤ f.pnum then f.plen else 0

/-- Congestion-counted bytes of a queue of sent frames. -/
def sentPlenSum (rst : Nat) (l : List Frame) : Nat :=
  (l.map (countedPlen rst)).sum

/-- Invariant I2: `in_flight` equals the congestion-counted bytes of all
in-flight frames across the three send contexts. -/
def flightInv (qc : QuicConn) : Prop :=
  qc.congestion.in_flight =
    sentPlenSum qc.rst_pnum (getCtx qc .initial).sent +
    sentPlenSum qc.rst_pnum (getCtx qc .handshake).sent +
    sentPlenSum qc.rst_pnum (getCtx qc .application).sent

/-- Packet-accounting well-formedness of a `sent` queue: the packet length
`plen` is attached to the first frame of each packet, so any later frame of
the same packet carries `plen = 0` (set by the packetizer outside this
core; `congestion_lost` relies on it by charging only the first frame). -/
def plenShape (l : List Frame) : Prop :=
  l.Pairwise (fun a b => a.pnum = b.pnum → b.plen = 0)

/-- A state satisfying invariant I2: three in-flight 1200-byte packets and
`in_flight = 3600`. -/
def c8conn : QuicConn :=
  { baseConn with
      ctx_application := { emptyCtx with
        sent := [mkFrame 0 10 1200, mkFrame 1 10 1200, mkFrame 5 100 1200],
        pnum := 6, largest_ack := 5 },
      congestion := { window := 12000, ssthresh := INFTY, in_flight := 3600,
                      recovery_start := 0 } }

/-- The frame-only malformedness scan of an ACK frame, mirroring the
validation order of `njt_quic_handle_ack_frame`: walk the `(gap, range)`
pairs with the running minimum, flagging `gap + 2 > min` or
`range > min - gap - 2`. -/
def ackMalformedGo : Nat → List (Nat × Nat) → Bool
  | _, [] => false
  | mn, (gap, range) :: rest =>
    if mn < gap + 2 then true
    else if mn - gap - 2 < range then true
    else ackMalformedGo (mn - gap - 2 - range) rest

/-- A decoded ACK frame is malformed when `first_range > largest` or some
`(gap, range)` pair violates the running-minimum checks. -/
def ackMalformed (ack : AckFrame) : Bool :=
  decide (ack.largest < ack.first_range) ||
    ackMalformedGo (ack.largest - ack.first_range) ack.ranges

/-- The connection error recorded by a failed `handle_ack_frame` run
(`none` when the run succeeded). -/
def hres_error : HandleRes → Option (Option QuicError)
  | .hok _ => none
  | .herr q => some q.error

/-- A malformed ACK frame whose very first range already triggers an
"unknown packet number" protocol violation (nothing was ever sent). -/
def ack5 : AckFrame := { largest := 5, delay := 0, first_range := 0, ranges := [(10, 0)] }

/-- A structurally malformed ACK frame (`first_range > largest`). -/
def ackM : AckFrame := { largest := 3, delay := 0, first_range := 5, ranges := [] }

/-- Membership of a packet number in one of the `(gap, range)` ACK intervals
derived from the running minimum `mn`, mirroring the per-range loop of
`njt_quic_handle_ack_frame`. -/
def inAckIntervalsGo : Nat → List (Nat × Nat) → Nat → Prop
  | _, [], _ => False
  | mn, (gap, range) :: rest, p =>
    (mn - gap - 2 - range ≤ p ∧ p ≤ mn - gap - 2) ∨
      inAckIntervalsGo (mn - gap - 2 - range) rest p

/-- Success test of a `handle_ack_frame` result. -/
def isHok : HandleRes → Bool
  | .hok _ => true
  | .herr _ => false

/-- The connection carried by a `handle_ack_frame` result. -/
def hres_conn : HandleRes → QuicConn
  | .hok q => q
  | .herr q => q

/-- One unacked packet (pnum 5) in the application queue; the next packet
number is 6, so packet 10 was never sent. -/
def c9conn : QuicConn :=
  { baseConn with
      ctx_application := { emptyCtx with sent := [mkFrame 5 10 0], pnum := 6 } }

/-- A structurally well-formed ACK claiming packets 5..10 (but 10 was never
sent). -/
def ack9 : AckFrame := { largest := 10, delay := 0, first_range := 5, ranges := [] }

/-- One unacked packet (pnum 1) in the application queue, next packet
number 2. -/
def c9wconn : QuicConn :=
  { baseConn with
      ctx_application := { emptyCtx with sent := [mkFrame 1 10 0], pnum := 2 } }

/-- An ACK for exactly packet 1. -/
def ack9w : AckFrame := { largest := 1, delay := 0, first_range := 0, ranges := [] }

/-! ## Arithmetic bridges between machine and ideal arithmetic -/

theorem wsub_of_le (a b : Nat) (ha : a < W64) (h : b ≤ a) : wsub a b = a - b := by
  simp only [wsub, W64] at *
  omega

theorem toSigned_nonpos_iff (a b : Nat) (ha : a < 2 ^ 63) (hb : b < 2 ^ 63) :
    toSigned (wsub a b) ≤ 0 ↔ a ≤ b := by
  simp only [toSigned, wsub, W64] at *
  split <;> omega

theorem toSigned_pos_iff (a b : Nat) (ha : a < 2 ^ 63) (hb : b < 2 ^ 63) :
    0 < toSigned (wsub a b) ↔ b < a := by
  simp only [toSigned, wsub, W64] at *
  split <;> omega

theorem toSigned_neg_iff (a b : Nat) (ha : a < 2 ^ 63) (hb : b < 2 ^ 63) :
    toSigned (wsub a b) < 0 ↔ a < b := by
  simp only [toSigned, wsub, W64] at *
  split <;> omega

theorem nine_eighths (x : Nat) : 9 * x / 8 = x + x / 8 := by omega

/-! ## State-manipulation toolkit -/

@[simp] theorem getCtx_setCtx_self (qc : QuicConn) (l : Level) (c : SendCtx) :
    getCtx (setCtx qc l c) l = c := by
  cases l <;> rfl

theorem getCtx_setCtx_ne (qc : QuicConn) (l l' : Level) (c : SendCtx) (h : l ≠ l') :
    getCtx (setCtx qc l c) l' = getCtx qc l' := by
  cases l <;> cases l' <;> first | exact absurd rfl h | rfl

@[simp] theorem setCtx_getCtx (qc : QuicConn) (l : Level) :
    setCtx qc l (getCtx qc l) = qc := by
  cases l <;> rfl

theorem setCtx_ctx_comm (qc : QuicConn) (l : Level) (c c' : SendCtx) :
    setCtx (setCtx qc l c) l c' = setCtx qc l c' := by
  cases l <;> rfl

theorem congestion_ack_shape (qc : QuicConn) (now : Nat) (f : Frame) :
    ∃ cg p, congestion_ack qc now f = { qc with congestion := cg, push_posted := p } := by
  simp only [congestion_ack]
  repeat' split
  all_goals exact ⟨_, _, rfl⟩

theorem congestion_lost_shape (qc : QuicConn) (now : Nat) (f : Frame) :
    ∃ cg p g,
      congestion_lost_f qc now f = ({ qc with congestion := cg, push_posted := p }, g) := by
  simp only [congestion_lost_f]
  repeat' split
  all_goals exact ⟨_, _, _, rfl⟩

theorem rtt_sample_shape (qc : QuicConn) (now delay t : Nat) :
    ∃ a b c d e,
      rtt_sample qc now delay t =
        { qc with latest_rtt := a, min_rtt := b, avg_rtt := c, rttvar := d,
                  first_rtt := e } := by
  simp only [rtt_sample]
  repeat' split
  all_goals exact ⟨_, _, _, _, _, rfl⟩

theorem set_lost_timer_shape (qc : QuicConn) (now : Nat) :
    ∃ t, set_lost_timer qc now = { qc with timer := t } := by
  simp only [set_lost_timer]
  repeat' split
  all_goals exact ⟨_, rfl⟩

theorem drop_ack_ranges_shape (ctx : SendCtx) (pn : Nat) :
    ∃ lr fr rs pa,
      drop_ack_ranges ctx pn =
        { ctx with largest_range := lr, first_range := fr, ranges := rs,
                   pending_ack := pa } := by
  simp only [drop_ack_ranges]
  repeat' split
  all_goals exact ⟨_, _, _, _, rfl⟩

theorem resendOne_shape (lvl : Level) (qc : QuicConn) (f : Frame) :
    ∃ fr sa,
      resendOne lvl qc f = setCtx qc lvl { getCtx qc lvl with frames := fr, send_ack := sa } := by
  have heta : qc = setCtx qc lvl
      { getCtx qc lvl with frames := (getCtx qc lvl).frames,
                           send_ack := (getCtx qc lvl).send_ack } := by
    cases lvl <;> rfl
  simp only [resendOne, queue_frame]
  repeat' split
  all_goals first
    | exact ⟨_, _, rfl⟩
    | exact ⟨(getCtx qc lvl).frames, (getCtx qc lvl).send_ack, heta⟩

theorem resendFold_shape (lvl : Level) (group : List Frame) (qc : QuicConn) :
    ∃ fr sa,
      group.foldl (resendOne lvl) qc =
        setCtx qc lvl { getCtx qc lvl with frames := fr, send_ack := sa } := by
  induction group generalizing qc with
  | nil => exact ⟨(getCtx qc lvl).frames, (getCtx qc lvl).send_ack, by cases lvl <;> rfl⟩
  | cons f rest ih =>
    obtain ⟨fr1, sa1, h1⟩ := resendOne_shape lvl qc f
    obtain ⟨fr2, sa2, h2⟩ := ih (resendOne lvl qc f)
    exact ⟨fr2, sa2, by rw [List.foldl_cons, h2, h1, getCtx_setCtx_self, setCtx_ctx_comm]⟩

theorem resend_frames_nil (qc : QuicConn) (lvl : Level) (now : Nat)
    (h : (getCtx qc lvl).sent = []) : resend_frames qc lvl now = qc := by
  unfold resend_frames
  rw [h]

theorem resend_frames_shape (qc : QuicConn) (lvl : Level) (now : Nat)
    (start : Frame) (rest : List Frame)
    (h : (getCtx qc lvl).sent = start :: rest) :
    ∃ cg p fr sa,
      resend_frames qc lvl now =
        setCtx { qc with congestion := cg, push_posted := p } lvl
          { getCtx qc lvl with
              sent := rest.dropWhile (fun f => f.pnum = start.pnum),
              frames := fr, send_ack := sa } := by
  obtain ⟨cg1, p1, g, hcl⟩ := congestion_lost_shape qc now start
  have hg : getCtx { qc with congestion := cg1, push_posted := p1 } lvl = getCtx qc lvl := by
    cases lvl <;> rfl
  simp only [resend_frames, h, hcl, hg]
  obtain ⟨fr2, sa2, h2⟩ := resendFold_shape lvl
    (g :: rest.takeWhile (fun f => f.pnum = start.pnum))
    (setCtx { qc with congestion := cg1, push_posted := p1 } lvl
      { getCtx qc lvl with sent := rest.dropWhile (fun f => f.pnum = start.pnum) })
  rw [h2, getCtx_setCtx_self, setCtx_ctx_comm]
  have hcl2 : (setCtx { qc with congestion := cg1, push_posted := p1 } lvl
      { getCtx qc lvl with sent := rest.dropWhile (fun f => f.pnum = start.pnum),
                           frames := fr2, send_ack := sa2 }).closing = qc.closing := by
    cases lvl <;> rfl
  by_cases hc : qc.closing
  · rw [if_pos (by rw [hcl2]; exact hc)]
    exact ⟨cg1, p1, fr2, sa2, rfl⟩
  · rw [if_neg (by rw [hcl2]; exact hc)]
    refine ⟨cg1, true, fr2, sa2, ?_⟩
    cases lvl <;> rfl

theorem resend_other (qc : QuicConn) (lvl : Level) (now : Nat) (l' : Level)
    (h : lvl ≠ l') : getCtx (resend_frames qc lvl now) l' = getCtx qc l' := by
  cases hs : (getCtx qc lvl).sent with
  | nil => rw [resend_frames_nil qc lvl now hs]
  | cons start rest =>
    obtain ⟨cg, p, fr, sa, hR⟩ := resend_frames_shape qc lvl now start rest hs
    rw [hR, getCtx_setCtx_ne _ _ _ _ h]
    cases l' <;> rfl

theorem resend_sent (qc : QuicConn) (lvl : Level) (now : Nat)
    (start : Frame) (rest : List Frame) (h : (getCtx qc lvl).sent = start :: rest) :
    (getCtx (resend_frames qc lvl now) lvl).sent =
      rest.dropWhile (fun f => f.pnum = start.pnum) := by
  obtain ⟨cg, p, fr, sa, hR⟩ := resend_frames_shape qc lvl now start rest h
  rw [hR, getCtx_setCtx_self]

theorem resend_largest_ack (qc : QuicConn) (lvl : Level) (now : Nat) :
    (getCtx (resend_frames qc lvl now) lvl).largest_ack = (getCtx qc lvl).largest_ack := by
  cases hs : (getCtx qc lvl).sent with
  | nil => rw [resend_frames_nil qc lvl now hs]
  | cons start rest =>
    obtain ⟨cg, p, fr, sa, hR⟩ := resend_frames_shape qc lvl now start rest hs
    rw [hR, getCtx_setCtx_self]

theorem resend_pnum (qc : QuicConn) (lvl : Level) (now : Nat) :
    (getCtx (resend_frames qc lvl now) lvl).pnum = (getCtx qc lvl).pnum := by
  cases hs : (getCtx qc lvl).sent with
  | nil => rw [resend_frames_nil qc lvl now hs]
  | cons start rest =>
    obtain ⟨cg, p, fr, sa, hR⟩ := resend_frames_shape qc lvl now start rest hs
    rw [hR, getCtx_setCtx_self]

theorem resend_first_rtt (qc : QuicConn) (lvl : Level) (now : Nat) :
    (resend_frames qc lvl now).first_rtt = qc.first_rtt := by
  cases hs : (getCtx qc lvl).sent with
  | nil => rw [resend_frames_nil qc lvl now hs]
  | cons start rest =>
    obtain ⟨cg, p, fr, sa, hR⟩ := resend_frames_shape qc lvl now start rest hs
    rw [hR]
    cases lvl <;> rfl

/-- The loss condition the `njt_quic_detect_lost` walk applies to the head
packet: already acknowledged past it (`pnum ≤ largest_ack`) and either the
time threshold has expired or the packet threshold (3) is reached. -/
def lostCond (la thr now : Nat) (f : Frame) : Bool :=
  decide (f.pnum ≤ la) &&
    (decide (toSigned (wsub (f.send_time + thr) now) ≤ 0) || decide (3 ≤ la - f.pnum))

theorem dropWhile_dropWhile_of_imp {α : Type} (q c : α → Bool) :
    ∀ l : List α, (∀ x ∈ l.takeWhile q, c x = true) →
      (l.dropWhile q).dropWhile c = l.dropWhile c := by
  intro l
  induction l with
  | nil => intro _; rfl
  | cons x xs ih =>
    intro h
    cases hq : q x with
    | false => simp [List.dropWhile_cons, hq]
    | true =>
      have hcx : c x = true := by
        apply h
        simp [List.takeWhile_cons, hq]
      simp only [List.dropWhile_cons, hq, hcx, if_true]
      apply ih
      intro y hy
      apply h
      simp [List.takeWhile_cons, hq, hy]

theorem dropWhile_congr_mem {α : Type} (p q : α → Bool) :
    ∀ l : List α, (∀ x ∈ l, p x = q x) → l.dropWhile p = l.dropWhile q := by
  intro l
  induction l with
  | nil => intro _; rfl
  | cons x xs ih =>
    intro h
    have hx := h x (by simp)
    simp only [List.dropWhile_cons, hx]
    cases hq : q x with
    | false => simp
    | true =>
      simp only [if_true]
      exact ih (fun y hy => h y (by simp [hy]))

theorem detectCtxGo_other (lvl : Level) (now thr : Nat) (l' : Level) (h : lvl ≠ l') :
    ∀ (fuel : Nat) (qc : QuicConn) (acc : LossAcc),
      getCtx (detectCtxGo lvl now thr fuel qc acc).1 l' = getCtx qc l' := by
  intro fuel
  induction fuel with
  | zero => intro qc acc; rfl
  | succ n ih =>
    intro qc acc
    simp only [detectCtxGo]
    cases hs : (getCtx qc lvl).sent with
    | nil => rfl
    | cons start rest =>
      simp only []
      split
      · rfl
      · split
        · rfl
        · rw [ih, resend_other _ _ _ _ h]

theorem detectCtxGo_sent (lvl : Level) (now thr : Nat) :
    ∀ (fuel : Nat) (qc : QuicConn) (acc : LossAcc),
      (getCtx qc lvl).sent.length ≤ fuel →
      (∀ f ∈ (getCtx qc lvl).sent, ∀ g ∈ (getCtx qc lvl).sent,
          f.pnum = g.pnum → f.send_time = g.send_time) →
      (getCtx (detectCtxGo lvl now thr fuel qc acc).1 lvl).sent =
        (getCtx qc lvl).sent.dropWhile
          (lostCond (getCtx qc lvl).largest_ack thr now) := by
  intro fuel
  induction fuel with
  | zero =>
    intro qc acc hlen _
    have hnil : (getCtx qc lvl).sent = [] := List.length_eq_zero.mp (Nat.le_zero.mp hlen)
    simp [detectCtxGo, hnil]
  | succ n ih =>
    intro qc acc hlen hsame
    cases hs : (getCtx qc lvl).sent with
    | nil => simp [detectCtxGo, hs]
    | cons start rest =>
      simp only [detectCtxGo, hs]
      by_cases h1 : (getCtx qc lvl).largest_ack < start.pnum
      · rw [if_pos h1, List.dropWhile_cons, if_neg, hs]
        simp only [lostCond, Bool.and_eq_true, decide_eq_true_eq]
        intro hcontra
        omega
      · rw [if_neg h1]
        by_cases h2 : 0 < toSigned (wsub (start.send_time + thr) now) ∧
            (getCtx qc lvl).largest_ack - start.pnum < 3
        · rw [if_pos h2, List.dropWhile_cons, if_neg, hs]
          simp only [lostCond, Bool.and_eq_true, Bool.or_eq_true, decide_eq_true_eq]
          intro hcontra
          rcases hcontra with ⟨-, h3 | h4⟩
          · exact absurd h2.1 (by omega)
          · omega
        · rw [if_neg h2]
          have hcondT : lostCond (getCtx qc lvl).largest_ack thr now start = true := by
            simp only [lostCond, Bool.and_eq_true, Bool.or_eq_true, decide_eq_true_eq]
            constructor
            · omega
            · by_cases h3 : 0 < toSigned (wsub (start.send_time + thr) now)
              · right; rcases not_and_or.mp h2 with h | h
                · exact absurd h3 h
                · omega
              · left; omega
          have hlen' : (getCtx (resend_frames qc lvl now) lvl).sent.length ≤ n := by
            rw [resend_sent qc lvl now start rest hs]
            have h4 : (rest.dropWhile (fun f : Frame => decide (f.pnum = start.pnum))).length
                ≤ rest.length := (List.dropWhile_sublist _).length_le
            have h5 : (start :: rest).length ≤ n + 1 := by rw [← hs]; exact hlen
            simp only [List.length_cons] at h5
            omega
          have hsub : ((getCtx (resend_frames qc lvl now) lvl).sent).Sublist
              ((getCtx qc lvl).sent) := by
            rw [resend_sent qc lvl now start rest hs, hs]
            exact (List.dropWhile_sublist _).cons _
          have hsame' : ∀ f ∈ (getCtx (resend_frames qc lvl now) lvl).sent,
              ∀ g ∈ (getCtx (resend_frames qc lvl now) lvl).sent,
                f.pnum = g.pnum → f.send_time = g.send_time := by
            intro f hf g hg
            exact hsame f (hsub.subset hf) g (hsub.subset hg)
          rw [ih (resend_frames qc lvl now) _ hlen' hsame',
              resend_largest_ack qc lvl now,
              resend_sent qc lvl now start rest hs]
          rw [dropWhile_dropWhile_of_imp _ _ rest ?_]
          · rw [List.dropWhile_cons, if_pos hcondT]
          · intro x hx
            have hq : x.pnum = start.pnum := by
              have := List.mem_takeWhile_imp hx
              simpa using this
            have hxm : x ∈ (getCtx qc lvl).sent := by
              rw [hs]
              exact List.mem_cons_of_mem _ ((List.takeWhile_sublist _).subset hx)
            have hst : x.send_time = start.send_time :=
              hsame x hxm start (by rw [hs]; exact List.mem_cons_self _ _) hq
            rw [show lostCond (getCtx qc lvl).largest_ack thr now x =
                  lostCond (getCtx qc lvl).largest_ack thr now start from by
                simp only [lostCond, hq, hst], hcondT]

theorem detectOne_sent (lvl : Level) (now thr : Nat) (p : QuicConn × LossAcc)
    (hla : (getCtx p.1 lvl).largest_ack ≠ INFTY)
    (hsame : ∀ f ∈ (getCtx p.1 lvl).sent, ∀ g ∈ (getCtx p.1 lvl).sent,
        f.pnum = g.pnum → f.send_time = g.send_time) :
    (getCtx (detectOne lvl now thr p).1 lvl).sent =
      (getCtx p.1 lvl).sent.dropWhile
        (lostCond (getCtx p.1 lvl).largest_ack thr now) := by
  unfold detectOne
  rw [if_neg hla]
  exact detectCtxGo_sent lvl now thr _ p.1 p.2 le_rfl hsame

theorem detectOne_other (lvl : Level) (now thr : Nat) (l' : Level) (h : lvl ≠ l')
    (p : QuicConn × LossAcc) :
    getCtx (detectOne lvl now thr p).1 l' = getCtx p.1 l' := by
  unfold detectOne
  split
  · rfl
  · exact detectCtxGo_other lvl now thr l' h _ p.1 p.2

theorem detectWalk_sent (qc : QuicConn) (now : Nat) (lvl : Level)
    (hla : (getCtx qc lvl).largest_ack ≠ INFTY)
    (hsame : ∀ f ∈ (getCtx qc lvl).sent, ∀ g ∈ (getCtx qc lvl).sent,
        f.pnum = g.pnum → f.send_time = g.send_time) :
    (getCtx (detectWalk qc now).1 lvl).sent =
      (getCtx qc lvl).sent.dropWhile
        (lostCond (getCtx qc lvl).largest_ack (lost_threshold qc) now) := by
  unfold detectWalk
  cases lvl with
  | initial =>
    rw [detectOne_other .application now _ .initial (by simp) _,
        detectOne_other .handshake now _ .initial (by simp) _]
    exact detectOne_sent .initial now _ _ hla hsame
  | handshake =>
    rw [detectOne_other .application now _ .handshake (by simp) _]
    have h1 := detectOne_other .initial now (lost_threshold qc) .handshake (by simp)
      (qc, { nlost := 0, oldest := INFTY, newest := INFTY })
    rw [detectOne_sent .handshake now _ _ (by rw [h1]; exact hla)
      (by rw [h1]; exact hsame), h1]
  | application =>
    have h1 := detectOne_other .initial now (lost_threshold qc) .application (by simp)
      (qc, { nlost := 0, oldest := INFTY, newest := INFTY })
    have h2 := detectOne_other .handshake now (lost_threshold qc) .application (by simp)
      (detectOne .initial now (lost_threshold qc)
        (qc, { nlost := 0, oldest := INFTY, newest := INFTY }))
    rw [detectOne_sent .application now _ _ (by rw [h2, h1]; exact hla)
      (by rw [h2, h1]; exact hsame), h2, h1]

theorem set_lost_timer_getCtx (qc : QuicConn) (now : Nat) (l : Level) :
    getCtx (set_lost_timer qc now) l = getCtx qc l := by
  obtain ⟨t, ht⟩ := set_lost_timer_shape qc now
  rw [ht]
  cases l <;> rfl

theorem persistent_congestion_getCtx (qc : QuicConn) (now : Nat) (l : Level) :
    getCtx (persistent_congestion qc now) l = getCtx qc l := by
  cases l <;> rfl

theorem detect_lost_getCtx_walk (qc : QuicConn) (now : Nat) (st : Option AckStat)
    (l : Level) :
    getCtx (detect_lost qc now st) l = getCtx (detectWalk qc now).1 l := by
  unfold detect_lost
  rw [set_lost_timer_getCtx]
  cases st with
  | none => rfl
  | some s =>
    simp only []
    split
    · split
      · rw [persistent_congestion_getCtx]
      · rfl
    · rfl

theorem dropWhile_lostCond_no_small (la thr now : Nat) :
    ∀ l : List Frame, l.Pairwise (fun f g => f.pnum ≤ g.pnum) →
      ∀ g ∈ l.dropWhile (lostCond la thr now), ¬(g.pnum + 3 ≤ la) := by
  intro l
  induction l with
  | nil => intro _ g hg; simp at hg
  | cons x xs ih =>
    intro hsorted g hg
    rw [List.dropWhile_cons] at hg
    by_cases hc : lostCond la thr now x = true
    · rw [if_pos hc] at hg
      exact ih (List.Pairwise.of_cons hsorted) g hg
    · rw [if_neg hc] at hg
      simp only [lostCond, Bool.and_eq_true, Bool.or_eq_true, decide_eq_true_eq,
        not_and_or, not_or] at hc
      intro habs
      rcases List.mem_cons.mp hg with rfl | hgx
      · rcases hc with h | ⟨-, h⟩ <;> omega
      · have hle : x.pnum ≤ g.pnum := (List.pairwise_cons.mp hsorted).1 g hgx
        rcases hc with h | ⟨-, h⟩ <;> omega

/-- C1: for every send context whose `largest_ack` is set, `detect_lost`
declares lost (removing them from `sent` through `resend_frames`) exactly
the maximal head run of packets with `pnum ≤ largest_ack` that satisfy the
loss condition: `largest_ack - pnum ≥ 3` (the packet threshold) or
`send_time + thr ≤ now`, with `thr = max(max(latest_rtt, avg_rtt) * 9/8,
1 ms)`; in particular no frame with `pnum ≤ largest_ack - 3` survives the
call, regardless of its send time.  Hypotheses: the queue invariant I1
(`sent` ordered by `pnum`), frames of one packet share their send time, and
the timestamps are genuine 64-bit millisecond values (far below `2^62`). -/
theorem C1_detect_lost_threshold (qc : QuicConn) (now : Nat) (st : Option AckStat)
    (lvl : Level)
    (hla : (getCtx qc lvl).largest_ack ≠ INFTY)
    (hsorted : (getCtx qc lvl).sent.Pairwise (fun f g => f.pnum ≤ g.pnum))
    (hsame : ∀ f ∈ (getCtx qc lvl).sent, ∀ g ∈ (getCtx qc lvl).sent,
        f.pnum = g.pnum → f.send_time = g.send_time)
    (hbt : ∀ f ∈ (getCtx qc lvl).sent, f.send_time < 2 ^ 62)
    (hnow : now < 2 ^ 62)
    (hrtt : qc.latest_rtt < 2 ^ 58) (hrtt' : qc.avg_rtt < 2 ^ 58) :
    (getCtx (detect_lost qc now st) lvl).sent =
      (getCtx qc lvl).sent.dropWhile (fun f =>
        decide (f.pnum ≤ (getCtx qc lvl).largest_ack) &&
          (decide (f.send_time + max (9 * max qc.latest_rtt qc.avg_rtt / 8) 1 ≤ now) ||
           decide (3 ≤ (getCtx qc lvl).largest_ack - f.pnum)))
    ∧ ∀ g ∈ (getCtx (detect_lost qc now st) lvl).sent,
        ¬(g.pnum + 3 ≤ (getCtx qc lvl).largest_ack) := by
  have hthr : lost_threshold qc = max (9 * max qc.latest_rtt qc.avg_rtt / 8) 1 := by
    simp only [lost_threshold]
    rw [nine_eighths]
  have hthrb : lost_threshold qc < 2 ^ 62 := by
    rw [hthr]
    have : max qc.latest_rtt qc.avg_rtt < 2 ^ 58 := by omega
    omega
  have hmain : (getCtx (detect_lost qc now st) lvl).sent =
      (getCtx qc lvl).sent.dropWhile
        (lostCond (getCtx qc lvl).largest_ack (lost_threshold qc) now) := by
    rw [detect_lost_getCtx_walk, detectWalk_sent qc now lvl hla hsame]
  constructor
  · rw [hmain]
    apply dropWhile_congr_mem
    intro f hf
    have hb := hbt f hf
    simp only [lostCond, hthr]
    congr 1
    congr 1
    rw [decide_eq_decide]
    apply toSigned_nonpos_iff
    · omega
    · omega
  · intro g hg
    rw [hmain] at hg
    exact dropWhile_lostCond_no_small _ _ _ _ hsorted g hg

theorem C1_witness :
    (getCtx (detect_lost c1conn 100 none) .application).sent =
      (getCtx c1conn .application).sent.dropWhile (fun f =>
        decide (f.pnum ≤ (getCtx c1conn .application).largest_ack) &&
          (decide (f.send_time +
              max (9 * max c1conn.latest_rtt c1conn.avg_rtt / 8) 1 ≤ 100) ||
           decide (3 ≤ (getCtx c1conn .application).largest_ack - f.pnum)))
    ∧ ∀ g ∈ (getCtx (detect_lost c1conn 100 none) .application).sent,
        ¬(g.pnum + 3 ≤ (getCtx c1conn .application).largest_ack) :=
  C1_detect_lost_threshold c1conn 100 none .application (by decide) (by decide)
    (by decide) (by decide) (by decide) (by decide) (by decide)

/-- C2 counterexample: calling `congestion_lost` on a frame with `plen = 0`
(a pure-ACK frame of a lost packet, as `resend_frames` does) from the
initial congestion state (`window = 10 * max_udp_payload_size`,
`ssthresh` unset = all-ones) leaves `ssthresh ≠ window`, so the claimed
unconditional post-state `ssthresh = window` is false. -/
theorem C2_counterexample :
    (congestion_lost_f baseConn 100 (mkFrame 0 10 0)).1.congestion.ssthresh ≠
      (congestion_lost_f baseConn 100 (mkFrame 0 10 0)).1.congestion.window := by
  decide

/-- C2 (amended): in the reducing branch (`plen > 0`, `pnum ≥ rst_pnum`,
`send_time > recovery_start`) `congestion_lost` sets `recovery_start = now`,
`window = max(window/2, 2 * max_udp_payload_size)` and `ssthresh = window`,
so `window ≥ 2 * max_udp_payload_size` and `ssthresh = window` hold there;
any other call leaves `window` and `ssthresh` unchanged. -/
theorem C2_congestion_lost_newreno (qc : QuicConn) (now : Nat) (f : Frame)
    (hst : f.send_time < 2 ^ 63) (hrs : qc.congestion.recovery_start < 2 ^ 63) :
    ((f.plen ≠ 0 ∧ qc.rst_pnum ≤ f.pnum ∧ qc.congestion.recovery_start < f.send_time) →
      ((congestion_lost_f qc now f).1.congestion.recovery_start = now ∧
       (congestion_lost_f qc now f).1.congestion.window =
         max (qc.congestion.window / 2) (2 * qc.max_udp_payload_size) ∧
       (congestion_lost_f qc now f).1.congestion.ssthresh =
         (congestion_lost_f qc now f).1.congestion.window ∧
       2 * qc.max_udp_payload_size ≤ (congestion_lost_f qc now f).1.congestion.window))
    ∧ ((f.plen = 0 ∨ f.pnum < qc.rst_pnum ∨ f.send_time ≤ qc.congestion.recovery_start) →
      ((congestion_lost_f qc now f).1.congestion.window = qc.congestion.window ∧
       (congestion_lost_f qc now f).1.congestion.ssthresh = qc.congestion.ssthresh)) := by
  have hnp := toSigned_nonpos_iff f.send_time qc.congestion.recovery_start hst hrs
  constructor
  · rintro ⟨h1, h2, h3⟩
    have hc : ¬ (toSigned (wsub f.send_time qc.congestion.recovery_start) ≤ 0) := by
      rw [hnp]; omega
    simp only [congestion_lost_f, if_neg h1,
      if_neg (show ¬ f.pnum < qc.rst_pnum by omega), if_neg hc]
    split
    · refine ⟨rfl, ?_, rfl, ?_⟩
      · show Nat.max (qc.congestion.window / 2) (qc.max_udp_payload_size * 2) =
            max (qc.congestion.window / 2) (2 * qc.max_udp_payload_size)
        rw [Nat.mul_comm qc.max_udp_payload_size 2]
      · show 2 * qc.max_udp_payload_size ≤
            Nat.max (qc.congestion.window / 2) (qc.max_udp_payload_size * 2)
        rw [Nat.mul_comm 2 qc.max_udp_payload_size]
        exact Nat.le_max_right _ _
    · refine ⟨rfl, ?_, rfl, ?_⟩
      · show Nat.max (qc.congestion.window / 2) (qc.max_udp_payload_size * 2) =
            max (qc.congestion.window / 2) (2 * qc.max_udp_payload_size)
        rw [Nat.mul_comm qc.max_udp_payload_size 2]
      · show 2 * qc.max_udp_payload_size ≤
            Nat.max (qc.congestion.window / 2) (qc.max_udp_payload_size * 2)
        rw [Nat.mul_comm 2 qc.max_udp_payload_size]
        exact Nat.le_max_right _ _
  · intro h
    by_cases h1 : f.plen = 0
    · simp [congestion_lost_f, if_pos h1]
    · by_cases h2 : f.pnum < qc.rst_pnum
      · simp [congestion_lost_f, if_neg h1, if_pos h2]
      · have h3 : f.send_time ≤ qc.congestion.recovery_start := by tauto
        have hc : toSigned (wsub f.send_time qc.congestion.recovery_start) ≤ 0 :=
          hnp.mpr h3
        simp only [congestion_lost_f, if_neg h1, if_neg h2, if_pos hc]
        split <;> exact ⟨rfl, rfl⟩

theorem C2_witness :
    (congestion_lost_f baseConn 100 (mkFrame 0 10 1200)).1.congestion.recovery_start = 100 ∧
    (congestion_lost_f baseConn 100 (mkFrame 0 10 1200)).1.congestion.window =
      max (baseConn.congestion.window / 2) (2 * baseConn.max_udp_payload_size) ∧
    (congestion_lost_f baseConn 100 (mkFrame 0 10 1200)).1.congestion.ssthresh =
      (congestion_lost_f baseConn 100 (mkFrame 0 10 1200)).1.congestion.window ∧
    2 * baseConn.max_udp_payload_size ≤
      (congestion_lost_f baseConn 100 (mkFrame 0 10 1200)).1.congestion.window :=
  (C2_congestion_lost_newreno baseConn 100 (mkFrame 0 10 1200) (by decide) (by decide)).1
    ⟨by decide, by decide, by decide⟩

theorem ptoCtxDue_frame_sendto (qc : QuicConn) (f : Frame) (now : Nat) (l : Level) :
    ptoCtxDue (frame_sendto qc f) now l = ptoCtxDue qc now l := by
  cases l <;> rfl

theorem ptoLoop_spec (now : Nat) :
    ∀ (ls : List Level) (qc : QuicConn) (b : Nat),
      (2 * (ls.filter (fun l => ptoCtxDue qc now l)).length ≤ b →
        ptoLoop now qc b ls =
          some ({ qc with emitted :=
                    qc.emitted ++ pingPairs (ls.filter (fun l => ptoCtxDue qc now l)) },
                b - 2 * (ls.filter (fun l => ptoCtxDue qc now l)).length)) ∧
      (b < 2 * (ls.filter (fun l => ptoCtxDue qc now l)).length →
        ptoLoop now qc b ls = none) := by
  intro ls
  induction ls with
  | nil =>
    intro qc b
    constructor
    · intro _
      simp [ptoLoop, pingPairs]
    · intro h
      simp at h
  | cons lvl rest ih =>
    intro qc b
    by_cases hdue : ptoCtxDue qc now lvl = true
    · have hfl : (lvl :: rest).filter (fun l => ptoCtxDue qc now l) =
          lvl :: rest.filter (fun l => ptoCtxDue qc now l) := by
        simp [List.filter_cons, hdue]
      rw [hfl]
      match b with
      | 0 =>
        constructor
        · intro h
          simp at h
        · intro _
          simp [ptoLoop, hdue]
      | 1 =>
        constructor
        · intro h
          simp at h
          omega
        · intro _
          simp [ptoLoop, hdue]
      | Nat.succ (Nat.succ b2) =>
        have hqc2 : frame_sendto (frame_sendto qc (pingFrame lvl)) (pingFrame lvl) =
            { qc with emitted := qc.emitted ++ [pingFrame lvl, pingFrame lvl] } := by
          simp [frame_sendto]
        have hfe : rest.filter (fun l =>
              ptoCtxDue (frame_sendto (frame_sendto qc (pingFrame lvl)) (pingFrame lvl)) now l) =
            rest.filter (fun l => ptoCtxDue qc now l) := by
          apply List.filter_congr
          intro x _
          rw [ptoCtxDue_frame_sendto, ptoCtxDue_frame_sendto]
        obtain ⟨ihA, ihB⟩ :=
          ih (frame_sendto (frame_sendto qc (pingFrame lvl)) (pingFrame lvl)) b2
        rw [hfe] at ihA ihB
        have hred : ptoLoop now qc (Nat.succ (Nat.succ b2)) (lvl :: rest) =
            ptoLoop now (frame_sendto (frame_sendto qc (pingFrame lvl)) (pingFrame lvl))
              b2 rest := by
          simp [ptoLoop, hdue]
        constructor
        · intro h
          simp only [List.length_cons] at h
          have hb2 : 2 * (rest.filter (fun l => ptoCtxDue qc now l)).length ≤ b2 := by
            omega
          rw [hred, ihA hb2, hqc2]
          simp only [Option.some.injEq, Prod.mk.injEq]
          constructor
          · simp [pingPairs, List.append_assoc]
          · simp only [List.length_cons]
            omega
        · intro h
          simp only [List.length_cons] at h
          have hb2 : b2 < 2 * (rest.filter (fun l => ptoCtxDue qc now l)).length := by
            omega
          rw [hred]
          exact ihB hb2
    · have hfl : (lvl :: rest).filter (fun l => ptoCtxDue qc now l) =
          rest.filter (fun l => ptoCtxDue qc now l) := by
        simp [List.filter_cons, hdue]
      rw [hfl]
      have hstep : ∀ b' : Nat, ptoLoop now qc b' (lvl :: rest) = ptoLoop now qc b' rest := by
        intro b'
        simp [ptoLoop, hdue]
      rw [hstep]
      exact ih qc b

theorem set_lost_timer_pto_count (qc : QuicConn) (now : Nat) :
    (set_lost_timer qc now).pto_count = qc.pto_count := by
  obtain ⟨t, ht⟩ := set_lost_timer_shape qc now
  rw [ht]

theorem set_lost_timer_emitted (qc : QuicConn) (now : Nat) :
    (set_lost_timer qc now).emitted = qc.emitted := by
  obtain ⟨t, ht⟩ := set_lost_timer_shape qc now
  rw [ht]

/-- C7 counterexample: with both the initial and the handshake context due,
the PTO handler emits two PING probes for EVERY due context - four in
total - not only for the first due context as claimed. -/
theorem C7_counterexample :
    ptoCtxDue c7conn 1000 .initial = true ∧
    ptoCtxDue c7conn 1000 .handshake = true ∧
    (pres_emitted (pto_handler c7conn 1000 10)).map List.length = some 4 := by
  refine ⟨by decide, by decide, ?_⟩
  decide

/-- C7 (amended): when the PTO timer fires, the handler walks the three send
contexts in order, skips the ones that are empty, already acknowledged
(last `pnum ≤ largest_ack`) or whose deadline
`last.send_time + (pto_base << pto_count)` has not yet passed, and emits two
PING frames with `ignore_congestion = true` via `frame_sendto` for EVERY due
context (not only the first); it then increments `pto_count` by one and
reschedules the timer.  If the allocation budget cannot cover two PING
probes per due context, the connection is closed. -/
theorem C7_pto_handler_probes (qc : QuicConn) (now budget : Nat) :
    (2 * (dueLevels qc now).length ≤ budget →
      pto_handler qc now budget =
        .pok (set_lost_timer
          { qc with
              emitted := qc.emitted ++ pingPairs (dueLevels qc now),
              pto_count := qc.pto_count + 1 } now)) ∧
    (budget < 2 * (dueLevels qc now).length → pto_handler qc now budget = .pclosed) := by
  obtain ⟨hA, hB⟩ :=
    ptoLoop_spec now [Level.initial, Level.handshake, Level.application] qc budget
  constructor
  · intro h
    unfold pto_handler
    rw [hA (by simpa [dueLevels] using h)]
    simp [dueLevels]
  · intro h
    unfold pto_handler
    rw [hB (by simpa [dueLevels] using h)]

theorem C7_witness :
    pto_handler c7conn 1000 10 =
      .pok (set_lost_timer
        { c7conn with
            emitted := c7conn.emitted ++ pingPairs (dueLevels c7conn 1000),
            pto_count := c7conn.pto_count + 1 } 1000) :=
  (C7_pto_handler_probes c7conn 1000 10).1 (by decide)

/-- C10: whenever the PTO handler completes (all allocations succeed), it
increments `pto_count` by exactly one, independently of how many contexts
were due - in particular also when no context is due and no PING is emitted
at all; the backoff factor `pto_base << pto_count` therefore grows once per
timer fire, not once per probe sent. -/
theorem C10_pto_count_once (qc : QuicConn) (now budget : Nat) :
    (∀ q, pto_handler qc now budget = .pok q → q.pto_count = qc.pto_count + 1) ∧
    ((∀ l, ptoCtxDue qc now l = false) →
      pto_handler qc now budget =
        .pok (set_lost_timer { qc with pto_count := qc.pto_count + 1 } now) ∧
      (set_lost_timer { qc with pto_count := qc.pto_count + 1 } now).emitted =
        qc.emitted) := by
  obtain ⟨hA, hB⟩ :=
    ptoLoop_spec now [Level.initial, Level.handshake, Level.application] qc budget
  constructor
  · intro q hq
    by_cases hbud : 2 * ([Level.initial, Level.handshake, Level.application].filter
        (fun l => ptoCtxDue qc now l)).length ≤ budget
    · have hrun : pto_handler qc now budget =
          .pok (set_lost_timer
            { qc with
                emitted := qc.emitted ++ pingPairs
                  ([Level.initial, Level.handshake, Level.application].filter
                    (fun l => ptoCtxDue qc now l)),
                pto_count := qc.pto_count + 1 } now) := by
        unfold pto_handler
        rw [hA hbud]
      rw [hrun] at hq
      cases hq
      rw [set_lost_timer_pto_count]
    · have hrun : pto_handler qc now budget = .pclosed := by
        unfold pto_handler
        rw [hB (by omega)]
      rw [hrun] at hq
      cases hq
  · intro h
    have hfl : [Level.initial, Level.handshake, Level.application].filter
        (fun l => ptoCtxDue qc now l) = [] := by
      simp [List.filter_cons, h]
    have hrun := hA (by rw [hfl]; simp)
    have hrun' : pto_handler qc now budget =
        .pok (set_lost_timer { qc with pto_count := qc.pto_count + 1 } now) := by
      unfold pto_handler
      rw [hrun]
      rw [hfl]
      simp [pingPairs]
    refine ⟨hrun', ?_⟩
    rw [set_lost_timer_emitted]

theorem C10_witness :
    pto_handler baseConn 1000 0 =
      .pok (set_lost_timer { baseConn with pto_count := baseConn.pto_count + 1 } 1000) ∧
    (set_lost_timer { baseConn with pto_count := baseConn.pto_count + 1 } 1000).emitted =
      baseConn.emitted :=
  (C10_pto_count_once baseConn 1000 0).2 (by intro l; cases l <;> decide)

theorem toSigned_wsub_natAbs (a b : Nat) (ha : a < 2 ^ 63) (hb : b < 2 ^ 63) :
    (toSigned (wsub a b)).natAbs = ((a : Int) - (b : Int)).natAbs := by
  simp only [toSigned, wsub, W64] at *
  split <;> omega

/-- C4 counterexample: the code updates the estimators with separately
floored shifts, `rttvar += (sample >> 2) - (rttvar >> 2)`, which differs
from the claimed `rttvar += (sample - rttvar) / 4` under either reading of
`/`.  With `avg_rtt = 10`, `rttvar = 5` and a sample of `|10 - 8| = 2`
(latest = adjusted = 8, `ack_delay = 0`), the code yields `rttvar = 4` while
the claimed equation yields `5` under truncating division; with
`rttvar = 6` and sample `|10 - 5| = 5` the code yields `6` while the
claimed equation yields `5` under floor division. -/
theorem C4_counterexample :
    (rtt_sample c4conn 100 0 92).rttvar = 4 ∧
    specRttvarUpdate c4conn.rttvar 2 = 5 ∧
    (rtt_sample c4conn2 100 0 95).rttvar = 6 ∧
    specRttvarFloor c4conn2.rttvar 5 = 5 := by
  refine ⟨by decide, by decide, by decide, by decide⟩

/-- C4 (amended): an RTT sample sets `latest_rtt = t1 - t0`; the first
sample (unset `min_rtt`) sets `min_rtt = avg_rtt = latest_rtt`,
`rttvar = latest_rtt / 2` and `first_rtt = t1`; every later sample sets
`min_rtt = min(min_rtt, latest_rtt)`, computes `ack_delay` and `adjusted`
exactly as claimed, and updates the estimators with separately floored
quarters and eighths: `rttvar += |avg_rtt - adjusted|/4 - rttvar/4` and
`avg_rtt += adjusted/8 - avg_rtt/8` (not the single-quotient forms of the
original claim). -/
theorem C4_rtt_sample_characterization (qc : QuicConn) (now delay t0 : Nat)
    (ht : t0 ≤ now) (hnow : now < 2 ^ 62) (havg : qc.avg_rtt < 2 ^ 62)
    (hshift : delay <<< qc.ack_delay_exponent < W64) :
    (qc.min_rtt = INFTY →
      rtt_sample qc now delay t0 =
        { qc with latest_rtt := now - t0, min_rtt := now - t0, avg_rtt := now - t0,
                  rttvar := (now - t0) / 2, first_rtt := now }) ∧
    (qc.min_rtt ≠ INFTY →
      rtt_sample qc now delay t0 =
        { qc with
            latest_rtt := now - t0,
            min_rtt := min qc.min_rtt (now - t0),
            rttvar := qc.rttvar +
              ((qc.avg_rtt : Int) - (adjustedRtt qc now delay t0 : Int)).natAbs / 4 -
              qc.rttvar / 4,
            avg_rtt := qc.avg_rtt + adjustedRtt qc now delay t0 / 8 -
              qc.avg_rtt / 8 }) := by
  have hW : now < W64 := by simp only [W64]; omega
  have hws : wsub now t0 = now - t0 := wsub_of_le now t0 hW ht
  have hadjb : adjustedRtt qc now delay t0 ≤ now - t0 := by
    show (if min qc.min_rtt (now - t0) + ackDelayOf qc delay < now - t0 then
        now - t0 - ackDelayOf qc delay else now - t0) ≤ now - t0
    split <;> omega
  have habs : (toSigned (wsub qc.avg_rtt (adjustedRtt qc now delay t0))).natAbs =
      ((qc.avg_rtt : Int) - (adjustedRtt qc now delay t0 : Int)).natAbs := by
    apply toSigned_wsub_natAbs
    · omega
    · omega
  constructor
  · intro h
    simp only [rtt_sample, hws, if_pos h]
  · intro h
    simp only [rtt_sample, hws, if_neg h, Nat.mod_eq_of_lt hshift]
    rw [show (if qc.handshaked = true then
          min (delay <<< qc.ack_delay_exponent / 1000) qc.max_ack_delay
          else delay <<< qc.ack_delay_exponent / 1000) = ackDelayOf qc delay from rfl]
    rw [show (if min qc.min_rtt (now - t0) + ackDelayOf qc delay < now - t0 then
          now - t0 - ackDelayOf qc delay else now - t0) =
        adjustedRtt qc now delay t0 from rfl]
    rw [habs]

theorem C4_witness :
    rtt_sample c4conn 100 0 92 =
      { c4conn with
          latest_rtt := 100 - 92,
          min_rtt := min c4conn.min_rtt (100 - 92),
          rttvar := c4conn.rttvar +
            ((c4conn.avg_rtt : Int) - (adjustedRtt c4conn 100 0 92 : Int)).natAbs / 4 -
            c4conn.rttvar / 4,
          avg_rtt := c4conn.avg_rtt + adjustedRtt c4conn 100 0 92 / 8 -
            c4conn.avg_rtt / 8 } :=
  (C4_rtt_sample_characterization c4conn 100 0 92 (by decide) (by decide) (by decide)
    (by decide)).2 (by decide)

theorem rangeAckStep_shape (lvl : Level) (now : Nat) (qc : QuicConn) (f : Frame) :
    ∃ (cg : Congestion) (p : Bool) (c : Nat × Nat × List (Nat × Nat) × Nat),
      rangeAckStep lvl now qc f =
        setCtx { qc with congestion := cg, push_posted := p } lvl
          { getCtx qc lvl with
              largest_range := c.1, first_range := c.2.1,
              ranges := c.2.2.1, pending_ack := c.2.2.2 } := by
  obtain ⟨cg, p, hca⟩ := congestion_ack_shape qc now f
  have hg : getCtx { qc with congestion := cg, push_posted := p } lvl = getCtx qc lvl := by
    cases lvl <;> rfl
  have heta : { qc with congestion := cg, push_posted := p } =
      setCtx { qc with congestion := cg, push_posted := p } lvl
        { getCtx qc lvl with
            largest_range := (getCtx qc lvl).largest_range,
            first_range := (getCtx qc lvl).first_range,
            ranges := (getCtx qc lvl).ranges,
            pending_ack := (getCtx qc lvl).pending_ack } := by
    cases lvl <;> rfl
  simp only [rangeAckStep, hca, handle_stream_ack, hg]
  split
  · obtain ⟨lr, fr, rs, pa, hdr⟩ := drop_ack_ranges_shape (getCtx qc lvl) f.largest
    rw [hdr]
    exact ⟨cg, p, (lr, fr, rs, pa), rfl⟩
  · obtain ⟨lr, fr, rs, pa, hdr⟩ := drop_ack_ranges_shape (getCtx qc lvl) f.largest
    rw [hdr]
    exact ⟨cg, p, (lr, fr, rs, pa), rfl⟩
  · exact ⟨cg, p, ((getCtx qc lvl).largest_range, (getCtx qc lvl).first_range,
      (getCtx qc lvl).ranges, (getCtx qc lvl).pending_ack), heta⟩
  · exact ⟨cg, p, ((getCtx qc lvl).largest_range, (getCtx qc lvl).first_range,
      (getCtx qc lvl).ranges, (getCtx qc lvl).pending_ack), heta⟩
  · exact ⟨cg, p, ((getCtx qc lvl).largest_range, (getCtx qc lvl).first_range,
      (getCtx qc lvl).ranges, (getCtx qc lvl).pending_ack), heta⟩

theorem rangeAckGo_skip (lvl : Level) (now mn mx : Nat) :
    ∀ (l : List Frame) (qc : QuicConn) (st : AckStat) (found : Bool),
      (∀ f ∈ l, ¬(mn ≤ f.pnum ∧ f.pnum ≤ mx)) →
      rangeAckGo lvl now mn mx qc l st found = (qc, l, st, found) := by
  intro l
  induction l with
  | nil => intro qc st found _; rfl
  | cons f rest ih =>
    intro qc st found h
    have hf := h f (by simp)
    simp only [rangeAckGo]
    by_cases h1 : mx < f.pnum
    · rw [if_pos h1]
    · rw [if_neg h1, if_neg (by omega)]
      rw [ih qc st found (fun g hg => h g (by simp [hg]))]

theorem rangeAckGo_found_mono (lvl : Level) (now mn mx : Nat) :
    ∀ (l : List Frame) (qc : QuicConn) (st : AckStat),
      (rangeAckGo lvl now mn mx qc l st true).2.2.2 = true := by
  intro l
  induction l with
  | nil => intro qc st; rfl
  | cons f rest ih =>
    intro qc st
    simp only [rangeAckGo]
    split
    · rfl
    · split
      · apply ih
      · simp only []
        rw [show (rangeAckGo lvl now mn mx qc rest st true).2.2.2 = true from ih qc st]

theorem rangeAckGo_found_of_mem (lvl : Level) (now mn mx : Nat) :
    ∀ (l : List Frame) (qc : QuicConn) (st : AckStat),
      l.Pairwise (fun f g => f.pnum ≤ g.pnum) →
      (∃ f ∈ l, mn ≤ f.pnum ∧ f.pnum ≤ mx) →
      (rangeAckGo lvl now mn mx qc l st false).2.2.2 = true := by
  intro l
  induction l with
  | nil => intro qc st _ h; simp at h
  | cons f0 rest ih =>
    intro qc st hsorted hex
    obtain ⟨f, hfm, hf1, hf2⟩ := hex
    simp only [rangeAckGo]
    by_cases h1 : mx < f0.pnum
    · exfalso
      rcases List.mem_cons.mp hfm with rfl | hfr
      · omega
      · have := (List.pairwise_cons.mp hsorted).1 f hfr
        omega
    · rw [if_neg h1]
      by_cases h2 : mn ≤ f0.pnum
      · rw [if_pos h2]
        apply rangeAckGo_found_mono
      · rw [if_neg h2]
        have hfr : f ∈ rest := by
          rcases List.mem_cons.mp hfm with rfl | hfr
          · omega
          · exact hfr
        simp only []
        rw [show (rangeAckGo lvl now mn mx qc rest st false).2.2.2 = true from
          ih qc st (List.Pairwise.of_cons hsorted) ⟨f, hfr, hf1, hf2⟩]

theorem rangeAckGo_push_timer_set (lvl : Level) (now mn mx : Nat) :
    ∀ (l : List Frame) (qc : QuicConn) (st : AckStat) (found : Bool),
      (rangeAckGo lvl now mn mx qc l st found).1.push_timer_set =
        qc.push_timer_set := by
  intro l
  induction l with
  | nil => intro qc st found; rfl
  | cons f rest ih =>
    intro qc st found
    simp only [rangeAckGo]
    split
    · rfl
    · split
      · rw [ih]
        obtain ⟨cg, p, c, hstep⟩ := rangeAckStep_shape lvl now qc f
        rw [hstep]
        cases lvl <;> rfl
      · simp only []
        rw [show ∀ q : QuicConn × List Frame × AckStat × Bool,
            q = rangeAckGo lvl now mn mx qc rest st found →
            q.1.push_timer_set = qc.push_timer_set from fun q hq => by
          rw [hq, ih]]
        rfl

theorem setCtx_sent_self (qc : QuicConn) (lvl : Level) :
    setCtx qc lvl { getCtx qc lvl with sent := (getCtx qc lvl).sent } = qc := by
  cases lvl <;> rfl

theorem range_ack_none (qc : QuicConn) (lvl : Level) (now mn mx : Nat) (st : AckStat)
    (hnone : ∀ f ∈ (getCtx qc lvl).sent, ¬(mn ≤ f.pnum ∧ f.pnum ≤ mx)) :
    handle_ack_frame_range qc lvl now mn mx st =
      if mx < (getCtx qc lvl).pnum then .rok qc { st with max_pn := INFTY }
      else .rerr { qc with error := some .protocolViolation, error_ftype := some .ftAck,
                           error_reason := some "unknown packet number" } := by
  have hrw := rangeAckGo_skip lvl now mn mx (getCtx qc lvl).sent qc
    { st with max_pn := INFTY } false hnone
  simp only [handle_ack_frame_range, handle_path_mtu, ite_self, hrw, setCtx_sent_self,
    if_true, eq_self_iff_true]

theorem range_ack_found (qc : QuicConn) (lvl : Level) (now mn mx : Nat) (st : AckStat)
    (hfound : (rangeAckGo lvl now mn mx qc (getCtx qc lvl).sent
        { st with max_pn := INFTY } false).2.2.2 = true) :
    ∃ qc1 st1, handle_ack_frame_range qc lvl now mn mx st = .rok qc1 st1 ∧
      qc1.pto_count = 0 ∧ (qc.push_timer_set = false → qc1.push_posted = true) := by
  have hpts := rangeAckGo_push_timer_set lvl now mn mx (getCtx qc lvl).sent qc
    { st with max_pn := INFTY } false
  rcases hR : rangeAckGo lvl now mn mx qc (getCtx qc lvl).sent
      { st with max_pn := INFTY } false with ⟨qcW, sentW, stW, foundW⟩
  rw [hR] at hfound hpts
  simp only [] at hfound hpts
  subst hfound
  simp only [handle_ack_frame_range, handle_path_mtu, ite_self, hR]
  refine ⟨_, _, rfl, rfl, ?_⟩
  intro hpt
  have hC : (setCtx qcW lvl { getCtx qcW lvl with sent := sentW }).push_timer_set
      = false := by
    have : (setCtx qcW lvl { getCtx qcW lvl with sent := sentW }).push_timer_set =
        qcW.push_timer_set := by cases lvl <;> rfl
    rw [this, hpts, hpt]
  show (if (setCtx qcW lvl { getCtx qcW lvl with sent := sentW }).push_timer_set = false
      then { setCtx qcW lvl { getCtx qcW lvl with sent := sentW } with push_posted := true }
      else setCtx qcW lvl { getCtx qcW lvl with sent := sentW }).push_posted = true
  rw [if_pos hC]

/-- C6 counterexample: when the `push` event is armed as a timer
(`push.timer_set`, e.g. a pending delayed-ACK), a successful removal resets
`pto_count` but does NOT post the push event, contradicting the claim that
any removal posts it. -/
theorem C6_counterexample :
    rres_ok (handle_ack_frame_range c6conn .application 50 1 1 ackStat0) = true ∧
    (rres_conn (handle_ack_frame_range c6conn .application 50 1 1 ackStat0)).pto_count
      = 0 ∧
    (getCtx (rres_conn (handle_ack_frame_range c6conn .application 50 1 1 ackStat0))
      .application).sent = [] ∧
    (rres_conn (handle_ack_frame_range c6conn .application 50 1 1 ackStat0)).push_posted
      = false := by
  refine ⟨by decide, by decide, by decide, by decide⟩

/-- C6 (amended): `range_ack(min, max)` on a send context behaves as
claimed, except that the push event is posted only when its timer is not
already armed: with no frame in `[min, max]` and `max < ctx.pnum` it
succeeds as a duplicate ACK with the connection unchanged; with no frame
and `max ≥ ctx.pnum` it fails with PROTOCOL_VIOLATION and reason
"unknown packet number"; and whenever at least one frame is removed it
resets `pto_count` to 0 and, if the push timer is not set, posts `push`. -/
theorem C6_range_ack_outcomes (qc : QuicConn) (lvl : Level) (now mn mx : Nat)
    (st : AckStat) :
    ((∀ f ∈ (getCtx qc lvl).sent, ¬(mn ≤ f.pnum ∧ f.pnum ≤ mx)) ∧
        mx < (getCtx qc lvl).pnum →
      handle_ack_frame_range qc lvl now mn mx st =
        .rok qc { st with max_pn := INFTY }) ∧
    ((∀ f ∈ (getCtx qc lvl).sent, ¬(mn ≤ f.pnum ∧ f.pnum ≤ mx)) ∧
        (getCtx qc lvl).pnum ≤ mx →
      handle_ack_frame_range qc lvl now mn mx st =
        .rerr { qc with error := some .protocolViolation, error_ftype := some .ftAck,
                        error_reason := some "unknown packet number" }) ∧
    ((getCtx qc lvl).sent.Pairwise (fun f g => f.pnum ≤ g.pnum) ∧
        (∃ f ∈ (getCtx qc lvl).sent, mn ≤ f.pnum ∧ f.pnum ≤ mx) →
      ∃ qc1 st1, handle_ack_frame_range qc lvl now mn mx st = .rok qc1 st1 ∧
        qc1.pto_count = 0 ∧ (qc.push_timer_set = false → qc1.push_posted = true)) := by
  refine ⟨?_, ?_, ?_⟩
  · rintro ⟨hnone, hlt⟩
    rw [range_ack_none qc lvl now mn mx st hnone, if_pos hlt]
  · rintro ⟨hnone, hge⟩
    rw [range_ack_none qc lvl now mn mx st hnone, if_neg (by omega)]
  · rintro ⟨hsorted, hex⟩
    exact range_ack_found qc lvl now mn mx st
      (rangeAckGo_found_of_mem lvl now mn mx (getCtx qc lvl).sent qc
        { st with max_pn := INFTY } hsorted hex)

theorem C6_witness :
    ∃ qc1 st1,
      handle_ack_frame_range c1conn .application 100 0 1 ackStat0 = .rok qc1 st1 ∧
      qc1.pto_count = 0 ∧ (c1conn.push_timer_set = false → qc1.push_posted = true) :=
  (C6_range_ack_outcomes c1conn .application 100 0 1 ackStat0).2.2
    (by refine ⟨by decide, ?_⟩; exact ⟨mkFrame 0 10 1200, by decide, by decide, by decide⟩)

theorem set_lost_timer_congestion (qc : QuicConn) (now : Nat) :
    (set_lost_timer qc now).congestion = qc.congestion := by
  obtain ⟨t, ht⟩ := set_lost_timer_shape qc now
  rw [ht]

theorem resend_scalars (qc : QuicConn) (lvl : Level) (now : Nat) :
    (resend_frames qc lvl now).avg_rtt = qc.avg_rtt ∧
    (resend_frames qc lvl now).rttvar = qc.rttvar ∧
    (resend_frames qc lvl now).max_ack_delay = qc.max_ack_delay ∧
    (resend_frames qc lvl now).max_udp_payload_size = qc.max_udp_payload_size := by
  cases hs : (getCtx qc lvl).sent with
  | nil => rw [resend_frames_nil qc lvl now hs]; exact ⟨rfl, rfl, rfl, rfl⟩
  | cons start rest =>
    obtain ⟨cg, p, fr, sa, hR⟩ := resend_frames_shape qc lvl now start rest hs
    rw [hR]
    cases lvl <;> exact ⟨rfl, rfl, rfl, rfl⟩

theorem detectCtxGo_scalars (lvl : Level) (now thr : Nat) :
    ∀ (fuel : Nat) (qc : QuicConn) (acc : LossAcc),
      (detectCtxGo lvl now thr fuel qc acc).1.avg_rtt = qc.avg_rtt ∧
      (detectCtxGo lvl now thr fuel qc acc).1.rttvar = qc.rttvar ∧
      (detectCtxGo lvl now thr fuel qc acc).1.max_ack_delay = qc.max_ack_delay ∧
      (detectCtxGo lvl now thr fuel qc acc).1.max_udp_payload_size =
        qc.max_udp_payload_size := by
  intro fuel
  induction fuel with
  | zero => intro qc acc; exact ⟨rfl, rfl, rfl, rfl⟩
  | succ n ih =>
    intro qc acc
    simp only [detectCtxGo]
    cases hs : (getCtx qc lvl).sent with
    | nil => exact ⟨rfl, rfl, rfl, rfl⟩
    | cons start rest =>
      simp only []
      split
      · exact ⟨rfl, rfl, rfl, rfl⟩
      · split
        · exact ⟨rfl, rfl, rfl, rfl⟩
        · obtain ⟨h1, h2, h3, h4⟩ := ih (resend_frames qc lvl now) _
          obtain ⟨g1, g2, g3, g4⟩ := resend_scalars qc lvl now
          exact ⟨h1.trans g1, h2.trans g2, h3.trans g3, h4.trans g4⟩

theorem detectOne_scalars (lvl : Level) (now thr : Nat) (p : QuicConn × LossAcc) :
    (detectOne lvl now thr p).1.avg_rtt = p.1.avg_rtt ∧
    (detectOne lvl now thr p).1.rttvar = p.1.rttvar ∧
    (detectOne lvl now thr p).1.max_ack_delay = p.1.max_ack_delay ∧
    (detectOne lvl now thr p).1.max_udp_payload_size = p.1.max_udp_payload_size := by
  unfold detectOne
  split
  · exact ⟨rfl, rfl, rfl, rfl⟩
  · exact detectCtxGo_scalars lvl now thr _ p.1 p.2

theorem detectWalk_scalars (qc : QuicConn) (now : Nat) :
    (detectWalk qc now).1.avg_rtt = qc.avg_rtt ∧
    (detectWalk qc now).1.rttvar = qc.rttvar ∧
    (detectWalk qc now).1.max_ack_delay = qc.max_ack_delay ∧
    (detectWalk qc now).1.max_udp_payload_size = qc.max_udp_payload_size := by
  unfold detectWalk
  obtain ⟨a1, a2, a3, a4⟩ := detectOne_scalars Level.initial now (lost_threshold qc)
    (qc, { nlost := 0, oldest := INFTY, newest := INFTY })
  obtain ⟨b1, b2, b3, b4⟩ := detectOne_scalars Level.handshake now (lost_threshold qc)
    (detectOne Level.initial now (lost_threshold qc)
      (qc, { nlost := 0, oldest := INFTY, newest := INFTY }))
  obtain ⟨c1, c2, c3, c4⟩ := detectOne_scalars Level.application now (lost_threshold qc)
    (detectOne Level.handshake now (lost_threshold qc)
      (detectOne Level.initial now (lost_threshold qc)
        (qc, { nlost := 0, oldest := INFTY, newest := INFTY })))
  exact ⟨(c1.trans b1).trans a1, (c2.trans b2).trans a2,
         (c3.trans b3).trans a3, (c4.trans b4).trans a4⟩

theorem detectCtxGo_accInv (lvl : Level) (now thr : Nat) :
    ∀ (fuel : Nat) (qc : QuicConn) (acc : LossAcc),
      accInv acc → (∀ f ∈ (getCtx qc lvl).sent, f.send_time < 2 ^ 62) →
      accInv (detectCtxGo lvl now thr fuel qc acc).2 := by
  intro fuel
  induction fuel with
  | zero => intro qc acc hI _; exact hI
  | succ n ih =>
    intro qc acc hI hbt
    simp only [detectCtxGo]
    cases hs : (getCtx qc lvl).sent with
    | nil => exact hI
    | cons start rest =>
      simp only []
      split
      · exact hI
      · split
        · exact hI
        · apply ih
          · have hstb : start.send_time < 2 ^ 62 := hbt start (by rw [hs]; simp)
            by_cases hfr : qc.first_rtt < start.send_time
            · rw [if_pos hfr]
              simp only [accInv, INFTY, W64] at hI ⊢
              split <;> split <;> omega
            · rw [if_neg hfr]
              exact hI
          · intro f hf
            apply hbt
            have := resend_sent qc lvl now start rest hs
            rw [this] at hf
            rw [hs]
            exact List.mem_cons_of_mem _ ((List.dropWhile_sublist _).subset hf)

theorem detectOne_accInv (lvl : Level) (now thr : Nat) (p : QuicConn × LossAcc)
    (hI : accInv p.2) (hbt : ∀ f ∈ (getCtx p.1 lvl).sent, f.send_time < 2 ^ 62) :
    accInv (detectOne lvl now thr p).2 := by
  unfold detectOne
  split
  · exact hI
  · exact detectCtxGo_accInv lvl now thr _ p.1 p.2 hI hbt

theorem detectWalk_accInv (qc : QuicConn) (now : Nat)
    (hbt : ∀ lvl, ∀ f ∈ (getCtx qc lvl).sent, f.send_time < 2 ^ 62) :
    accInv (detectWalk qc now).2 := by
  unfold detectWalk
  have h0 : accInv { nlost := 0, oldest := INFTY, newest := INFTY } :=
    Or.inl ⟨rfl, rfl, rfl⟩
  have h1 := detectOne_accInv Level.initial now (lost_threshold qc)
    (qc, { nlost := 0, oldest := INFTY, newest := INFTY }) h0 (hbt .initial)
  have e1 := detectOne_other Level.initial now (lost_threshold qc) Level.handshake
    (by simp) (qc, { nlost := 0, oldest := INFTY, newest := INFTY })
  have h2 := detectOne_accInv Level.handshake now (lost_threshold qc)
    (detectOne Level.initial now (lost_threshold qc)
      (qc, { nlost := 0, oldest := INFTY, newest := INFTY })) h1
    (by rw [e1]; exact hbt .handshake)
  have e2 := detectOne_other Level.handshake now (lost_threshold qc) Level.application
    (by simp) (detectOne Level.initial now (lost_threshold qc)
      (qc, { nlost := 0, oldest := INFTY, newest := INFTY }))
  have e3 := detectOne_other Level.initial now (lost_threshold qc) Level.application
    (by simp) (qc, { nlost := 0, oldest := INFTY, newest := INFTY })
  exact detectOne_accInv Level.application now (lost_threshold qc) _ h2
    (by rw [e2, e3]; exact hbt .application)

/-- C3: after the loss scan, `detect_lost` collapses the congestion window
exactly under the claimed condition: an ack stat is supplied, at least two
packets sent after `first_rtt` were newly declared lost, the lost span and
the acked span are disjoint (`st.newest < oldest ∨ st.oldest > newest`),
and `newest - oldest > pcg_duration = (avg_rtt + max(4*rttvar, 1) +
max_ack_delay) * 3`.  The collapse sets `window = 2 * max_udp_payload_size`
and `recovery_start = now` and leaves `ssthresh` (and `in_flight`)
unchanged; otherwise the congestion state is exactly the one left by the
loss walk. -/
theorem C3_persistent_congestion (qc : QuicConn) (now : Nat) (s : AckStat)
    (hbt : ∀ lvl, ∀ f ∈ (getCtx qc lvl).sent, f.send_time < 2 ^ 62) :
    (2 ≤ (detectWalk qc now).2.nlost ∧
        (s.newest < (detectWalk qc now).2.oldest ∨
         (detectWalk qc now).2.newest < s.oldest) ∧
        (qc.avg_rtt + max (4 * qc.rttvar) 1 + qc.max_ack_delay) * 3 <
          (detectWalk qc now).2.newest - (detectWalk qc now).2.oldest →
      (detect_lost qc now (some s)).congestion =
        { (detectWalk qc now).1.congestion with
            recovery_start := now,
            window := 2 * qc.max_udp_payload_size }) ∧
    (¬(2 ≤ (detectWalk qc now).2.nlost ∧
        (s.newest < (detectWalk qc now).2.oldest ∨
         (detectWalk qc now).2.newest < s.oldest) ∧
        (qc.avg_rtt + max (4 * qc.rttvar) 1 + qc.max_ack_delay) * 3 <
          (detectWalk qc now).2.newest - (detectWalk qc now).2.oldest) →
      (detect_lost qc now (some s)).congestion =
        (detectWalk qc now).1.congestion) := by
  have hinv := detectWalk_accInv qc now hbt
  obtain ⟨h1, h2, h3, h4⟩ := detectWalk_scalars qc now
  have hpcg : pcg_duration (detectWalk qc now).1 =
      (qc.avg_rtt + max (4 * qc.rttvar) 1 + qc.max_ack_delay) * 3 := by
    simp only [pcg_duration, h1, h2, h3]
  have hbound : 2 ≤ (detectWalk qc now).2.nlost →
      (detectWalk qc now).2.oldest ≤ (detectWalk qc now).2.newest ∧
      (detectWalk qc now).2.newest < 2 ^ 62 := by
    intro hn
    rcases hinv with ⟨-, -, hz⟩ | h
    · omega
    · exact h
  constructor
  · rintro ⟨hn, hd, hdur⟩
    obtain ⟨hle, hlt⟩ := hbound hn
    have hws : wsub (detectWalk qc now).2.newest (detectWalk qc now).2.oldest =
        (detectWalk qc now).2.newest - (detectWalk qc now).2.oldest :=
      wsub_of_le _ _ (by simp only [W64]; omega) hle
    simp only [detect_lost]
    rw [if_pos ⟨hn, hd⟩, if_pos (by rw [hpcg, hws]; exact hdur),
        set_lost_timer_congestion]
    simp only [persistent_congestion]
    rw [h4, Nat.mul_comm]
  · intro hnc
    simp only [detect_lost]
    by_cases hc1 : 2 ≤ (detectWalk qc now).2.nlost ∧
        (s.newest < (detectWalk qc now).2.oldest ∨
         (detectWalk qc now).2.newest < s.oldest)
    · obtain ⟨hle, hlt⟩ := hbound hc1.1
      have hws : wsub (detectWalk qc now).2.newest (detectWalk qc now).2.oldest =
          (detectWalk qc now).2.newest - (detectWalk qc now).2.oldest :=
        wsub_of_le _ _ (by simp only [W64]; omega) hle
      rw [if_pos hc1, if_neg (by rw [hpcg, hws]; intro hx; exact hnc ⟨hc1.1, hc1.2, hx⟩),
          set_lost_timer_congestion]
    · rw [if_neg hc1, set_lost_timer_congestion]

theorem C3_witness :
    (detect_lost c3conn 1000 (some s3stat)).congestion =
      { (detectWalk c3conn 1000).1.congestion with
          recovery_start := 1000,
          window := 2 * c3conn.max_udp_payload_size } :=
  (C3_persistent_congestion c3conn 1000 s3stat
      (by intro lvl; cases lvl <;> decide)).1 (by refine ⟨by decide, ?_, by decide⟩; decide)

theorem congestion_ack_congestion_parts (qc : QuicConn) (now : Nat) (f : Frame) :
    ((f.plen = 0 ∨ f.pnum < qc.rst_pnum) →
      (congestion_ack qc now f).congestion.in_flight = qc.congestion.in_flight) ∧
    (¬(f.plen = 0 ∨ f.pnum < qc.rst_pnum) →
      (congestion_ack qc now f).congestion.in_flight =
        wsub qc.congestion.in_flight f.plen) := by
  constructor
  · intro h
    by_cases h1 : f.plen = 0
    · simp [congestion_ack, if_pos h1]
    · have h2 : f.pnum < qc.rst_pnum := by tauto
      simp [congestion_ack, if_neg h1, if_pos h2]
  · intro h
    push_neg at h
    simp only [congestion_ack, if_neg h.1, if_neg (by omega : ¬ f.pnum < qc.rst_pnum)]
    repeat' split
    all_goals rfl

theorem rangeAckStep_congestion (lvl : Level) (now : Nat) (qc : QuicConn) (f : Frame) :
    (rangeAckStep lvl now qc f).congestion = (congestion_ack qc now f).congestion := by
  simp only [rangeAckStep, handle_stream_ack]
  split
  · cases lvl <;> rfl
  · cases lvl <;> rfl
  · rfl
  · rfl
  · rfl

theorem rangeAckStep_rst (lvl : Level) (now : Nat) (qc : QuicConn) (f : Frame) :
    (rangeAckStep lvl now qc f).rst_pnum = qc.rst_pnum := by
  obtain ⟨cg, p, c, h⟩ := rangeAckStep_shape lvl now qc f
  rw [h]
  cases lvl <;> rfl

theorem congestion_ack_rst (qc : QuicConn) (now : Nat) (f : Frame) :
    (congestion_ack qc now f).rst_pnum = qc.rst_pnum := by
  obtain ⟨cg, p, h⟩ := congestion_ack_shape qc now f
  rw [h]

theorem rangeAckGo_sent_all (lvl : Level) (now mn mx : Nat) :
    ∀ (l : List Frame) (qc : QuicConn) (st : AckStat) (found : Bool) (l' : Level),
      (getCtx (rangeAckGo lvl now mn mx qc l st found).1 l').sent =
        (getCtx qc l').sent := by
  intro l
  induction l with
  | nil => intro qc st found l'; rfl
  | cons f rest ih =>
    intro qc st found l'
    simp only [rangeAckGo]
    split
    · rfl
    · split
      · rw [ih]
        obtain ⟨cg, p, c, hstep⟩ := rangeAckStep_shape lvl now qc f
        rw [hstep]
        by_cases hll : lvl = l'
        · subst hll
          rw [getCtx_setCtx_self]
        · rw [getCtx_setCtx_ne _ _ _ _ hll]
          cases l' <;> rfl
      · simp only []
        rw [show ∀ q : QuicConn × List Frame × AckStat × Bool,
            q = rangeAckGo lvl now mn mx qc rest st found →
            (getCtx q.1 l').sent = (getCtx qc l').sent from fun q hq => by
          rw [hq, ih]]
        rfl

theorem sentPlenSum_cons (rst : Nat) (f : Frame) (l : List Frame) :
    sentPlenSum rst (f :: l) = countedPlen rst f + sentPlenSum rst l := by
  simp [sentPlenSum]

theorem rangeAckGo_flight (lvl : Level) (now mn mx rst : Nat) :
    ∀ (l : List Frame) (qc : QuicConn) (st : AckStat) (found : Bool) (K : Nat),
      qc.rst_pnum = rst →
      qc.congestion.in_flight = sentPlenSum rst l + K →
      sentPlenSum rst l + K < W64 →
      (rangeAckGo lvl now mn mx qc l st found).1.rst_pnum = rst ∧
      (rangeAckGo lvl now mn mx qc l st found).1.congestion.in_flight =
        sentPlenSum rst (rangeAckGo lvl now mn mx qc l st found).2.1 + K := by
  intro l
  induction l with
  | nil =>
    intro qc st found K h1 h2 _
    exact ⟨h1, by simpa [rangeAckGo, sentPlenSum] using h2⟩
  | cons f rest ih =>
    intro qc st found K h1 h2 hb
    simp only [rangeAckGo]
    by_cases hgt : mx < f.pnum
    · rw [if_pos hgt]
      exact ⟨h1, h2⟩
    · rw [if_neg hgt]
      by_cases hge : mn ≤ f.pnum
      · rw [if_pos hge]
        obtain ⟨hA, hB⟩ := congestion_ack_congestion_parts qc now f
        have hrst' : (rangeAckStep lvl now qc f).rst_pnum = rst := by
          rw [rangeAckStep_rst, h1]
        rw [sentPlenSum_cons] at h2 hb
        have hif : (rangeAckStep lvl now qc f).congestion.in_flight =
            sentPlenSum rst rest + K := by
          rw [rangeAckStep_congestion]
          by_cases hz : f.plen = 0 ∨ f.pnum < qc.rst_pnum
          · rw [hA hz]
            have hcp : countedPlen rst f = 0 := by
              simp only [countedPlen]
              rcases hz with hz | hz
              · split <;> simp [hz]
              · rw [if_neg (by omega)]
            omega
          · rw [hB hz]
            push_neg at hz
            have hcp : countedPlen rst f = f.plen := by
              simp only [countedPlen]
              rw [if_pos (by omega)]
            rw [wsub_of_le _ _ (by omega) (by omega)]
            omega
        exact ih (rangeAckStep lvl now qc f) _ true K hrst' hif (by omega)
      · rw [if_neg hge]
        rcases hres : rangeAckGo lvl now mn mx qc rest st found with ⟨qc', rest', st', found'⟩
        rw [sentPlenSum_cons] at h2 hb
        have hstep := ih qc st found (countedPlen rst f + K) h1 (by omega) (by omega)
        rw [hres] at hstep
        simp only [] at hstep ⊢
        refine ⟨hstep.1, ?_⟩
        rw [sentPlenSum_cons]
        omega

theorem range_ack_flightInv (qc : QuicConn) (lvl : Level) (now mn mx : Nat)
    (st : AckStat) (hI : flightInv qc) (hb : qc.congestion.in_flight < W64) :
    flightInv (rres_conn (handle_ack_frame_range qc lvl now mn mx st)) := by
  rcases hres : rangeAckGo lvl now mn mx qc (getCtx qc lvl).sent
      { st with max_pn := INFTY } false with ⟨qcW, sentW, stW, foundW⟩
  have hsA := rangeAckGo_sent_all lvl now mn mx (getCtx qc lvl).sent qc
    { st with max_pn := INFTY } false
  have hq1 : flightInv (setCtx qcW lvl { getCtx qcW lvl with sent := sentW }) ∧
      True := by
    refine ⟨?_, trivial⟩
    have hKfl : ∀ K : Nat,
        qc.congestion.in_flight = sentPlenSum qc.rst_pnum (getCtx qc lvl).sent + K →
        qcW.rst_pnum = qc.rst_pnum ∧
        qcW.congestion.in_flight = sentPlenSum qc.rst_pnum sentW + K := by
      intro K hK
      have h := rangeAckGo_flight lvl now mn mx qc.rst_pnum (getCtx qc lvl).sent qc
        { st with max_pn := INFTY } false K rfl hK (by omega)
      rw [hres] at h
      exact h
    have hsetCg : (setCtx qcW lvl { getCtx qcW lvl with sent := sentW }).congestion =
        qcW.congestion := by cases lvl <;> rfl
    have hsetRst : (setCtx qcW lvl { getCtx qcW lvl with sent := sentW }).rst_pnum =
        qcW.rst_pnum := by cases lvl <;> rfl
    cases lvl with
    | initial =>
      obtain ⟨hr, hf⟩ := hKfl
        (sentPlenSum qc.rst_pnum (getCtx qc .handshake).sent +
         sentPlenSum qc.rst_pnum (getCtx qc .application).sent) (by rw [hI]; ring)
      have e1 := hsA .handshake
      have e2 := hsA .application
      rw [hres] at e1 e2
      simp only [] at e1 e2
      simp only [flightInv, hsetCg, hsetRst, hr, getCtx_setCtx_self,
        getCtx_setCtx_ne _ _ _ _ (by simp : Level.initial ≠ Level.handshake),
        getCtx_setCtx_ne _ _ _ _ (by simp : Level.initial ≠ Level.application),
        e1, e2]
      omega
    | handshake =>
      obtain ⟨hr, hf⟩ := hKfl
        (sentPlenSum qc.rst_pnum (getCtx qc .initial).sent +
         sentPlenSum qc.rst_pnum (getCtx qc .application).sent) (by rw [hI]; ring)
      have e1 := hsA .initial
      have e2 := hsA .application
      rw [hres] at e1 e2
      simp only [] at e1 e2
      simp only [flightInv, hsetCg, hsetRst, hr, getCtx_setCtx_self,
        getCtx_setCtx_ne _ _ _ _ (by simp : Level.handshake ≠ Level.initial),
        getCtx_setCtx_ne _ _ _ _ (by simp : Level.handshake ≠ Level.application),
        e1, e2]
      omega
    | application =>
      obtain ⟨hr, hf⟩ := hKfl
        (sentPlenSum qc.rst_pnum (getCtx qc .initial).sent +
         sentPlenSum qc.rst_pnum (getCtx qc .handshake).sent) (by rw [hI]; ring)
      have e1 := hsA .initial
      have e2 := hsA .handshake
      rw [hres] at e1 e2
      simp only [] at e1 e2
      simp only [flightInv, hsetCg, hsetRst, hr, getCtx_setCtx_self,
        getCtx_setCtx_ne _ _ _ _ (by simp : Level.application ≠ Level.initial),
        getCtx_setCtx_ne _ _ _ _ (by simp : Level.application ≠ Level.handshake),
        e1, e2]
      omega
  obtain ⟨hq1, -⟩ := hq1
  cases foundW with
  | false =>
    simp only [handle_ack_frame_range, handle_path_mtu, ite_self, hres, if_true,
      eq_self_iff_true]
    by_cases hlt :
        mx < (getCtx (setCtx qcW lvl { getCtx qcW lvl with sent := sentW }) lvl).pnum
    · rw [if_pos hlt]
      exact hq1
    · rw [if_neg hlt]
      exact hq1
  | true =>
    simp only [handle_ack_frame_range, handle_path_mtu, ite_self, hres]
    rw [if_neg (by simp)]
    simp only [rres_conn]
    by_cases hpt : (setCtx qcW lvl { getCtx qcW lvl with sent := sentW }).push_timer_set
        = false
    · rw [if_pos hpt]
      exact hq1
    · rw [if_neg hpt]
      exact hq1

theorem congestion_lost_in_flight (qc : QuicConn) (now : Nat) (f : Frame) :
    ((f.plen = 0 ∨ f.pnum < qc.rst_pnum) →
      (congestion_lost_f qc now f).1.congestion.in_flight = qc.congestion.in_flight) ∧
    (¬(f.plen = 0 ∨ f.pnum < qc.rst_pnum) →
      (congestion_lost_f qc now f).1.congestion.in_flight =
        wsub qc.congestion.in_flight f.plen) := by
  constructor
  · intro h
    by_cases h1 : f.plen = 0
    · simp [congestion_lost_f, if_pos h1]
    · have h2 : f.pnum < qc.rst_pnum := by tauto
      simp [congestion_lost_f, if_neg h1, if_pos h2]
  · intro h
    push_neg at h
    simp only [congestion_lost_f, if_neg h.1, if_neg (by omega : ¬ f.pnum < qc.rst_pnum)]
    repeat' split
    all_goals rfl

theorem resend_congestion (qc : QuicConn) (lvl : Level) (now : Nat)
    (start : Frame) (rest : List Frame) (h : (getCtx qc lvl).sent = start :: rest) :
    (resend_frames qc lvl now).congestion =
      (congestion_lost_f qc now start).1.congestion := by
  obtain ⟨cg1, p1, g, hcl⟩ := congestion_lost_shape qc now start
  have hg : getCtx { qc with congestion := cg1, push_posted := p1 } lvl = getCtx qc lvl := by
    cases lvl <;> rfl
  simp only [resend_frames, h, hcl, hg]
  obtain ⟨fr2, sa2, h2⟩ := resendFold_shape lvl
    (g :: rest.takeWhile (fun f => f.pnum = start.pnum))
    (setCtx { qc with congestion := cg1, push_posted := p1 } lvl
      { getCtx qc lvl with sent := rest.dropWhile (fun f => f.pnum = start.pnum) })
  rw [h2, getCtx_setCtx_self, setCtx_ctx_comm]
  split <;> (cases lvl <;> rfl)

theorem resend_rst (qc : QuicConn) (lvl : Level) (now : Nat) :
    (resend_frames qc lvl now).rst_pnum = qc.rst_pnum := by
  cases hs : (getCtx qc lvl).sent with
  | nil => rw [resend_frames_nil qc lvl now hs]
  | cons start rest =>
    obtain ⟨cg, p, fr, sa, hR⟩ := resend_frames_shape qc lvl now start rest hs
    rw [hR]
    cases lvl <;> rfl

theorem sentPlenSum_group_zero (rst : Nat) (start : Frame) (rest : List Frame)
    (hshape : plenShape (start :: rest)) :
    sentPlenSum rst (rest.takeWhile (fun f => f.pnum = start.pnum)) = 0 := by
  apply List.sum_eq_zero
  intro x hx
  obtain ⟨f, hf, rfl⟩ := List.mem_map.mp hx
  have hpn : f.pnum = start.pnum := by
    have := List.mem_takeWhile_imp hf
    simpa using this
  have hfr : f ∈ rest := (List.takeWhile_sublist _).subset hf
  have hz : f.plen = 0 :=
    (List.pairwise_cons.mp hshape).1 f hfr hpn.symm
  simp [countedPlen, hz]

theorem sentPlenSum_split (rst : Nat) (q : Frame → Bool) (l : List Frame) :
    sentPlenSum rst l =
      sentPlenSum rst (l.takeWhile q) + sentPlenSum rst (l.dropWhile q) := by
  have h := congrArg (sentPlenSum rst) (List.takeWhile_append_dropWhile q l)
  rw [← h]
  simp only [sentPlenSum, List.map_append, List.sum_append]

theorem resend_flightInv (qc : QuicConn) (lvl : Level) (now : Nat)
    (hI : flightInv qc) (hb : qc.congestion.in_flight < W64)
    (hshape : plenShape (getCtx qc lvl).sent) :
    flightInv (resend_frames qc lvl now) := by
  cases hs : (getCtx qc lvl).sent with
  | nil => rw [resend_frames_nil qc lvl now hs]; exact hI
  | cons start rest =>
    have hcg := resend_congestion qc lvl now start rest hs
    have hrst := resend_rst qc lvl now
    have hsent := resend_sent qc lvl now start rest hs
    have hsplit := sentPlenSum_split qc.rst_pnum
      (fun f => decide (f.pnum = start.pnum)) rest
    have hgz : sentPlenSum qc.rst_pnum
        (rest.takeWhile (fun f => decide (f.pnum = start.pnum))) = 0 := by
      rw [hs] at hshape
      exact sentPlenSum_group_zero qc.rst_pnum start rest hshape
    obtain ⟨hA, hB⟩ := congestion_lost_in_flight qc now start
    have hif : (resend_frames qc lvl now).congestion.in_flight +
        countedPlen qc.rst_pnum start = qc.congestion.in_flight := by
      rw [hcg]
      by_cases hz : start.plen = 0 ∨ start.pnum < qc.rst_pnum
      · rw [hA hz]
        have : countedPlen qc.rst_pnum start = 0 := by
          simp only [countedPlen]
          rcases hz with hz | hz
          · split <;> simp [hz]
          · rw [if_neg (by omega)]
        omega
      · push_neg at hz
        have hcp : countedPlen qc.rst_pnum start = start.plen := by
          simp only [countedPlen]
          rw [if_pos (by omega)]
        have hple : start.plen ≤ qc.congestion.in_flight := by
          rw [hI]
          cases lvl <;> (rw [hs, sentPlenSum_cons]; omega)
        rw [hB (by omega), wsub_of_le _ _ (by omega) hple]
        omega
    have hflqc : qc.congestion.in_flight =
        sentPlenSum qc.rst_pnum (getCtx qc .initial).sent +
        sentPlenSum qc.rst_pnum (getCtx qc .handshake).sent +
        sentPlenSum qc.rst_pnum (getCtx qc .application).sent := hI
    simp only [flightInv, hrst]
    cases lvl with
    | initial =>
      rw [hsent, resend_other qc _ now .handshake (by simp),
          resend_other qc _ now .application (by simp)]
      rw [hs, sentPlenSum_cons] at hflqc
      rw [hsplit] at hflqc
      omega
    | handshake =>
      rw [hsent, resend_other qc _ now .initial (by simp),
          resend_other qc _ now .application (by simp)]
      rw [hs, sentPlenSum_cons] at hflqc
      rw [hsplit] at hflqc
      omega
    | application =>
      rw [hsent, resend_other qc _ now .initial (by simp),
          resend_other qc _ now .handshake (by simp)]
      rw [hs, sentPlenSum_cons] at hflqc
      rw [hsplit] at hflqc
      omega

/-- C8: invariant I2 - `in_flight` equals the congestion-counted bytes
(`plen` of frames with `pnum ≥ rst_pnum`) of all frames currently in the
`sent` queues - is preserved by every operation of this core: ACK removal
(`handle_ack_frame_range`, which runs `congestion_ack` per removed frame),
loss declaration (`resend_frames`, which runs `congestion_lost` once per
lost packet), and the persistent-congestion collapse.  Loss preservation
uses the packet-accounting shape (`plen` carried by the first frame of a
packet only), which the packetizer guarantees. -/
theorem C8_in_flight_invariant (qc : QuicConn) (lvl : Level) (now mn mx : Nat)
    (st : AckStat) (hI : flightInv qc) (hb : qc.congestion.in_flight < W64) :
    flightInv (rres_conn (handle_ack_frame_range qc lvl now mn mx st)) ∧
    (plenShape (getCtx qc lvl).sent → flightInv (resend_frames qc lvl now)) ∧
    flightInv (persistent_congestion qc now) := by
  refine ⟨range_ack_flightInv qc lvl now mn mx st hI hb, ?_, ?_⟩
  · intro hshape
    exact resend_flightInv qc lvl now hI hb hshape
  · exact hI

theorem C8_witness :
    flightInv (rres_conn (handle_ack_frame_range c8conn .application 100 0 1 ackStat0)) ∧
    flightInv (resend_frames c8conn .application 100) ∧
    flightInv (persistent_congestion c8conn 100) := by
  obtain ⟨h1, h2, h3⟩ :=
    C8_in_flight_invariant c8conn .application 100 0 1 ackStat0
      (by unfold flightInv; decide) (by decide)
  exact ⟨h1, h2 (by unfold plenShape; decide), h3⟩

/-! ## C5: FRAME_ENCODING_ERROR characterization -/

theorem range_ack_rerr_error (qc : QuicConn) (lvl : Level) (now mn mx : Nat)
    (st : AckStat) (q : QuicConn)
    (h : handle_ack_frame_range qc lvl now mn mx st = .rerr q) :
    q.error = some .protocolViolation := by
  rcases hR : rangeAckGo lvl now mn mx qc (getCtx qc lvl).sent
      { st with max_pn := INFTY } false with ⟨qcW, sentW, stW, foundW⟩
  simp only [handle_ack_frame_range, handle_path_mtu, ite_self, hR] at h
  split at h
  · split at h
    · cases h
    · cases h
      rfl
  · split at h <;> cases h

theorem handleAckLoop_fee (lvl : Level) (now : Nat) :
    ∀ (ranges : List (Nat × Nat)) (qc : QuicConn) (st : AckStat) (mn : Nat)
      (qcE : QuicConn),
      handleAckLoop lvl now qc st mn ranges = .herr qcE →
      qcE.error = some .frameEncodingError →
      ackMalformedGo mn ranges = true := by
  intro ranges
  induction ranges with
  | nil =>
    intro qc st mn qcE h _
    simp only [handleAckLoop] at h
    cases h
  | cons p rest ih =>
    intro qc st mn qcE h hfee
    rcases p with ⟨gap, range⟩
    simp only [handleAckLoop] at h
    simp only [ackMalformedGo]
    by_cases h1 : mn < gap + 2
    · simp [h1]
    · rw [if_neg h1] at h
      rw [if_neg h1]
      by_cases h2 : mn - gap - 2 < range
      · simp [h2]
      · rw [if_neg h2] at h
        rw [if_neg h2]
        rcases hR : handle_ack_frame_range qc lvl now (mn - gap - 2 - range)
            (mn - gap - 2) st with ⟨qc1, st1⟩ | qE
        · simp only [hR] at h
          exact ih _ _ _ _ h hfee
        · simp only [hR] at h
          cases h
          have hpv := range_ack_rerr_error _ _ _ _ _ _ _ hR
          rw [hpv] at hfee
          cases hfee

theorem handleAckLoop_malformed (lvl : Level) (now : Nat) :
    ∀ (ranges : List (Nat × Nat)) (qc : QuicConn) (st : AckStat) (mn : Nat),
      ackMalformedGo mn ranges = true →
      ∃ qcE, handleAckLoop lvl now qc st mn ranges = .herr qcE := by
  intro ranges
  induction ranges with
  | nil =>
    intro qc st mn h
    simp only [ackMalformedGo] at h
    cases h
  | cons p rest ih =>
    intro qc st mn h
    rcases p with ⟨gap, range⟩
    simp only [ackMalformedGo] at h
    simp only [handleAckLoop]
    by_cases h1 : mn < gap + 2
    · exact ⟨_, by rw [if_pos h1]⟩
    · rw [if_neg h1] at h
      rw [if_neg h1]
      by_cases h2 : mn - gap - 2 < range
      · exact ⟨_, by rw [if_pos h2]⟩
      · rw [if_neg h2] at h
        rw [if_neg h2]
        rcases hR : handle_ack_frame_range qc lvl now (mn - gap - 2 - range)
            (mn - gap - 2) st with ⟨qc1, st1⟩ | qE
        · simp only [hR]
          exact ih _ _ _ h
        · exact ⟨qE, by simp only [hR]⟩

/-- **C5 (counterexample).**  A malformed ACK frame (its single `(gap, range)`
pair violates `gap + 2 ≤ min`: `5 < 10 + 2`) fed to a connection that never
sent packet 5 fails with `PROTOCOL_VIOLATION` ("unknown packet number"), not
with `FRAME_ENCODING_ERROR`: the first range is acknowledged before the pair
is validated, so the claimed "exactly when malformed" equivalence fails in
the forward direction. -/
theorem C5_counterexample :
    ackMalformed ack5 = true ∧
    hres_error (handle_ack_frame baseConn .application 60 ack5) =
      some (some .protocolViolation) ∧
    some (some QuicError.protocolViolation) ≠
      some (some QuicError.frameEncodingError) := by
  refine ⟨by decide, by decide, by decide⟩

/-- **C5 (amended).**  `handle_ack_frame` fails with `FRAME_ENCODING_ERROR`
only if the decoded ACK frame is malformed (`first_range > largest`, or some
`(gap, range)` pair violates `gap + 2 ≤ min` or `range ≤ min - gap - 2`
against the running minimum), and every malformed ACK frame makes it fail —
though possibly with `PROTOCOL_VIOLATION` instead, when an earlier range
acknowledges an unknown packet number before the offending pair is
validated. -/
theorem C5_error_characterization (qc : QuicConn) (lvl : Level) (now : Nat)
    (ack : AckFrame) :
    (∀ qcE, handle_ack_frame qc lvl now ack = .herr qcE →
        qcE.error = some .frameEncodingError → ackMalformed ack = true) ∧
    (ackMalformed ack = true →
        ∃ qcE, handle_ack_frame qc lvl now ack = .herr qcE) := by
  constructor
  · intro qcE h hfee
    simp only [handle_ack_frame] at h
    by_cases h0 : ack.largest < ack.first_range
    · simp [ackMalformed, h0]
    · rw [if_neg h0] at h
      rcases hR : handle_ack_frame_range qc lvl now
          (ack.largest - ack.first_range) ack.largest
          { max_pn := INFTY, oldest := INFTY, newest := INFTY } with ⟨qc1, st1⟩ | qE
      · simp only [hR] at h
        have hGo := handleAckLoop_fee lvl now ack.ranges _ _ _ _ h hfee
        simp [ackMalformed, hGo]
      · simp only [hR] at h
        cases h
        have hpv := range_ack_rerr_error _ _ _ _ _ _ _ hR
        rw [hpv] at hfee
        cases hfee
  · intro h
    simp only [handle_ack_frame]
    by_cases h0 : ack.largest < ack.first_range
    · exact ⟨_, by rw [if_pos h0]⟩
    · rw [if_neg h0]
      have hGo : ackMalformedGo (ack.largest - ack.first_range) ack.ranges = true := by
        simp only [ackMalformed, Bool.or_eq_true, decide_eq_true_eq] at h
        rcases h with h | h
        · exact absurd h h0
        · exact h
      rcases hR : handle_ack_frame_range qc lvl now
          (ack.largest - ack.first_range) ack.largest
          { max_pn := INFTY, oldest := INFTY, newest := INFTY } with ⟨qc1, st1⟩ | qE
      · simp only [hR]
        exact handleAckLoop_malformed lvl now ack.ranges _ _ _ hGo
      · exact ⟨qE, by simp only [hR]⟩

theorem C5_witness :
    ackMalformed ackM = true ∧
    ∃ qcE, handle_ack_frame baseConn .initial 0 ackM = .herr qcE :=
  ⟨by decide, (C5_error_characterization baseConn .initial 0 ackM).2 (by decide)⟩

/-! ## C9: duplicate-ACK idempotence -/

theorem dropWhile_head_false {α : Type} (p : α → Bool) :
    ∀ (l : List α) (x : α) (xs : List α), l.dropWhile p = x :: xs → p x = false := by
  intro l
  induction l with
  | nil => intro x xs h; cases h
  | cons a as ih =>
    intro x xs h
    rw [List.dropWhile_cons] at h
    by_cases ha : p a = true
    · rw [if_pos ha] at h
      exact ih x xs h
    · rw [if_neg ha] at h
      cases h
      exact Bool.eq_false_iff.mpr ha

theorem rangeAckStep_keep (lvl : Level) (now : Nat) (qc : QuicConn) (f : Frame) :
    (∀ l', (getCtx (rangeAckStep lvl now qc f) l').largest_ack =
        (getCtx qc l').largest_ack ∧
      (getCtx (rangeAckStep lvl now qc f) l').pnum = (getCtx qc l').pnum) ∧
    (rangeAckStep lvl now qc f).latest_rtt = qc.latest_rtt ∧
    (rangeAckStep lvl now qc f).avg_rtt = qc.avg_rtt := by
  obtain ⟨cg, p, c, hstep⟩ := rangeAckStep_shape lvl now qc f
  rw [hstep]
  refine ⟨?_, by cases lvl <;> rfl, by cases lvl <;> rfl⟩
  intro l'
  by_cases hll : lvl = l'
  · subst hll
    rw [getCtx_setCtx_self]
    exact ⟨rfl, rfl⟩
  · rw [getCtx_setCtx_ne _ _ _ _ hll]
    cases l' <;> exact ⟨rfl, rfl⟩

theorem rangeAckGo_facts (lvl : Level) (now mn mx : Nat) :
    ∀ (l : List Frame) (qc : QuicConn) (st : AckStat) (found : Bool),
      List.Sublist (rangeAckGo lvl now mn mx qc l st found).2.1 l ∧
      ((rangeAckGo lvl now mn mx qc l st found).1.latest_rtt = qc.latest_rtt ∧
       (rangeAckGo lvl now mn mx qc l st found).1.avg_rtt = qc.avg_rtt) ∧
      (∀ l', (getCtx (rangeAckGo lvl now mn mx qc l st found).1 l').largest_ack =
            (getCtx qc l').largest_ack ∧
          (getCtx (rangeAckGo lvl now mn mx qc l st found).1 l').pnum =
            (getCtx qc l').pnum) ∧
      (l.Pairwise (fun f g => f.pnum ≤ g.pnum) →
        ∀ f ∈ (rangeAckGo lvl now mn mx qc l st found).2.1,
          ¬(mn ≤ f.pnum ∧ f.pnum ≤ mx)) := by
  intro l
  induction l with
  | nil =>
    intro qc st found
    exact ⟨List.Sublist.refl [], ⟨rfl, rfl⟩, fun l' => ⟨rfl, rfl⟩,
      fun _ f hf => absurd hf (List.not_mem_nil f)⟩
  | cons f rest ih =>
    intro qc st found
    simp only [rangeAckGo]
    by_cases h1 : mx < f.pnum
    · rw [if_pos h1]
      refine ⟨List.Sublist.refl _, ⟨rfl, rfl⟩, fun l' => ⟨rfl, rfl⟩, ?_⟩
      intro hs g hg hc
      rcases List.mem_cons.mp hg with rfl | hgr
      · omega
      · have hle : f.pnum ≤ g.pnum := (List.pairwise_cons.mp hs).1 g hgr
        omega
    · rw [if_neg h1]
      by_cases h2 : mn ≤ f.pnum
      · rw [if_pos h2]
        obtain ⟨hkeepS, hlrS, havS⟩ := rangeAckStep_keep lvl now qc f
        refine ⟨List.Sublist.cons _ (ih _ _ true).1,
          ⟨(ih _ _ true).2.1.1.trans hlrS, (ih _ _ true).2.1.2.trans havS⟩,
          fun l' => ⟨((ih _ _ true).2.2.1 l').1.trans (hkeepS l').1,
            ((ih _ _ true).2.2.1 l').2.trans (hkeepS l').2⟩,
          fun hs g hg => (ih _ _ true).2.2.2 (List.Pairwise.of_cons hs) g hg⟩
      · rw [if_neg h2]
        rcases hR : rangeAckGo lvl now mn mx qc rest st found with ⟨qc1, rest1, st1, found1⟩
        have hih := ih qc st found
        rw [hR] at hih
        simp only [] at hih
        obtain ⟨hsub, hsc, hkeep, hclr⟩ := hih
        simp only [hR]
        refine ⟨List.Sublist.cons₂ _ hsub, hsc, hkeep, ?_⟩
        intro hs g hg
        rcases List.mem_cons.mp hg with rfl | hgr
        · intro hc
          exact h2 hc.1
        · exact hclr (List.Pairwise.of_cons hs) g hgr

theorem range_ack_rok_facts (qc : QuicConn) (lvl : Level) (now mn mx : Nat)
    (st : AckStat) (qcB : QuicConn) (stB : AckStat)
    (h : handle_ack_frame_range qc lvl now mn mx st = .rok qcB stB) :
    List.Sublist (getCtx qcB lvl).sent (getCtx qc lvl).sent ∧
    (∀ l', l' ≠ lvl → (getCtx qcB l').sent = (getCtx qc l').sent) ∧
    (∀ l', (getCtx qcB l').largest_ack = (getCtx qc l').largest_ack ∧
           (getCtx qcB l').pnum = (getCtx qc l').pnum) ∧
    qcB.latest_rtt = qc.latest_rtt ∧ qcB.avg_rtt = qc.avg_rtt ∧
    ((getCtx qc lvl).sent.Pairwise (fun f g => f.pnum ≤ g.pnum) →
      ∀ f ∈ (getCtx qcB lvl).sent, ¬(mn ≤ f.pnum ∧ f.pnum ≤ mx)) := by
  rcases hR : rangeAckGo lvl now mn mx qc (getCtx qc lvl).sent
      { st with max_pn := INFTY } false with ⟨qcW, sentW, stW, foundW⟩
  have hfacts := rangeAckGo_facts lvl now mn mx (getCtx qc lvl).sent qc
    { st with max_pn := INFTY } false
  rw [hR] at hfacts
  simp only [] at hfacts
  obtain ⟨hsub, ⟨hlr, hav⟩, hkeep, hclr⟩ := hfacts
  have hsall : ∀ l', (getCtx qcW l').sent = (getCtx qc l').sent := by
    intro l'
    have := rangeAckGo_sent_all lvl now mn mx (getCtx qc lvl).sent qc
      { st with max_pn := INFTY } false l'
    rw [hR] at this
    exact this
  have hgp : ∀ (X : QuicConn) (l : Level), getCtx { X with pto_count := 0 } l = getCtx X l := by
    intro X l
    cases l <;> rfl
  have hgq : ∀ (X : QuicConn) (l : Level),
      getCtx { X with push_posted := true } l = getCtx X l := by
    intro X l
    cases l <;> rfl
  simp only [handle_ack_frame_range, handle_path_mtu, ite_self, hR] at h
  split at h
  · split at h
    · injection h with h1 h2
      subst h1
      refine ⟨?_, ?_, ?_, by cases lvl <;> exact hlr, by cases lvl <;> exact hav, ?_⟩
      · rw [getCtx_setCtx_self]
        exact hsub
      · intro l' hne
        rw [getCtx_setCtx_ne _ _ _ _ (fun hd => hne hd.symm)]
        exact hsall l'
      · intro l'
        by_cases hll : l' = lvl
        · subst hll
          rw [getCtx_setCtx_self]
          exact ⟨(hkeep l').1, (hkeep l').2⟩
        · rw [getCtx_setCtx_ne _ _ _ _ (fun hd => hll hd.symm)]
          exact hkeep l'
      · intro hs f hf
        rw [getCtx_setCtx_self] at hf
        exact hclr hs f hf
    · cases h
  · injection h with h1 h2
    subst h1
    have hgI : ∀ l, getCtx
        (if (setCtx qcW lvl { getCtx qcW lvl with sent := sentW }).push_timer_set = false
          then { (setCtx qcW lvl { getCtx qcW lvl with sent := sentW }) with
                   push_posted := true }
          else setCtx qcW lvl { getCtx qcW lvl with sent := sentW }) l =
        getCtx (setCtx qcW lvl { getCtx qcW lvl with sent := sentW }) l := by
      intro l
      split
      · exact hgq _ l
      · rfl
    have hlrI :
        (if (setCtx qcW lvl { getCtx qcW lvl with sent := sentW }).push_timer_set = false
          then { (setCtx qcW lvl { getCtx qcW lvl with sent := sentW }) with
                   push_posted := true }
          else setCtx qcW lvl { getCtx qcW lvl with sent := sentW }).latest_rtt =
        (setCtx qcW lvl { getCtx qcW lvl with sent := sentW }).latest_rtt := by
      split <;> rfl
    have havI :
        (if (setCtx qcW lvl { getCtx qcW lvl with sent := sentW }).push_timer_set = false
          then { (setCtx qcW lvl { getCtx qcW lvl with sent := sentW }) with
                   push_posted := true }
          else setCtx qcW lvl { getCtx qcW lvl with sent := sentW }).avg_rtt =
        (setCtx qcW lvl { getCtx qcW lvl with sent := sentW }).avg_rtt := by
      split <;> rfl
    refine ⟨?_, ?_, ?_, ?_, ?_, ?_⟩
    · rw [hgp, hgI, getCtx_setCtx_self]
      exact hsub
    · intro l' hne
      rw [hgp, hgI, getCtx_setCtx_ne _ _ _ _ (fun hd => hne hd.symm)]
      exact hsall l'
    · intro l'
      rw [hgp, hgI]
      by_cases hll : l' = lvl
      · subst hll
        rw [getCtx_setCtx_self]
        exact ⟨(hkeep l').1, (hkeep l').2⟩
      · rw [getCtx_setCtx_ne _ _ _ _ (fun hd => hll hd.symm)]
        exact hkeep l'
    · exact hlrI.trans (by cases lvl <;> exact hlr)
    · exact havI.trans (by cases lvl <;> exact hav)
    · intro hs f hf
      rw [hgp, hgI, getCtx_setCtx_self] at hf
      exact hclr hs f hf

theorem handleAckLoop_hok_wf (lvl : Level) (now : Nat) :
    ∀ (ranges : List (Nat × Nat)) (qc : QuicConn) (st : AckStat) (mn : Nat)
      (q1 : QuicConn),
      handleAckLoop lvl now qc st mn ranges = .hok q1 →
      ackMalformedGo mn ranges = false := by
  intro ranges
  induction ranges with
  | nil => intro qc st mn q1 _; rfl
  | cons p rest ih =>
    intro qc st mn q1 h
    rcases p with ⟨gap, range⟩
    simp only [handleAckLoop] at h
    simp only [ackMalformedGo]
    by_cases h1 : mn < gap + 2
    · rw [if_pos h1] at h
      cases h
    rw [if_neg h1] at h
    rw [if_neg h1]
    by_cases h2 : mn - gap - 2 < range
    · rw [if_pos h2] at h
      cases h
    rw [if_neg h2] at h
    rw [if_neg h2]
    rcases hR : handle_ack_frame_range qc lvl now (mn - gap - 2 - range)
        (mn - gap - 2) st with ⟨qcB, stB⟩ | qE
    · simp only [hR] at h
      exact ih _ _ _ _ h
    · simp only [hR] at h
      cases h

theorem handleAckLoop_hok_facts (lvl : Level) (now : Nat) :
    ∀ (ranges : List (Nat × Nat)) (qcA : QuicConn) (stA : AckStat) (mn : Nat)
      (q1 : QuicConn),
      handleAckLoop lvl now qcA stA mn ranges = .hok q1 →
      ∃ qcL stL, q1 = detect_lost qcL now (some stL) ∧
        (∀ l', List.Sublist (getCtx qcL l').sent (getCtx qcA l').sent) ∧
        (∀ l', (getCtx qcL l').largest_ack = (getCtx qcA l').largest_ack ∧
               (getCtx qcL l').pnum = (getCtx qcA l').pnum) ∧
        qcL.latest_rtt = qcA.latest_rtt ∧ qcL.avg_rtt = qcA.avg_rtt ∧
        ((getCtx qcA lvl).sent.Pairwise (fun f g => f.pnum ≤ g.pnum) →
          ∀ f ∈ (getCtx qcL lvl).sent, ¬ inAckIntervalsGo mn ranges f.pnum) := by
  intro ranges
  induction ranges with
  | nil =>
    intro qcA stA mn q1 h
    simp only [handleAckLoop] at h
    injection h with h'
    refine ⟨qcA, stA, h'.symm, fun l' => List.Sublist.refl _,
      fun l' => ⟨rfl, rfl⟩, rfl, rfl, ?_⟩
    intro _ f _ hx
    simp only [inAckIntervalsGo] at hx
  | cons p rest ih =>
    intro qcA stA mn q1 h
    rcases p with ⟨gap, range⟩
    simp only [handleAckLoop] at h
    by_cases h1 : mn < gap + 2
    · rw [if_pos h1] at h
      cases h
    rw [if_neg h1] at h
    by_cases h2 : mn - gap - 2 < range
    · rw [if_pos h2] at h
      cases h
    rw [if_neg h2] at h
    rcases hR : handle_ack_frame_range qcA lvl now (mn - gap - 2 - range)
        (mn - gap - 2) stA with ⟨qcB, stB⟩ | qE
    · simp only [hR] at h
      obtain ⟨qcL, stL, hq1, hsub, hkeep, hlr, hav, hclr⟩ := ih qcB stB _ q1 h
      obtain ⟨bsub, both, bkeep, blr, bav, bclr⟩ :=
        range_ack_rok_facts qcA lvl now _ _ stA qcB stB hR
      refine ⟨qcL, stL, hq1, ?_, ?_, hlr.trans blr, hav.trans bav, ?_⟩
      · intro l'
        by_cases hll : l' = lvl
        · subst hll
          exact (hsub l').trans bsub
        · rw [← both l' hll]
          exact hsub l'
      · intro l'
        exact ⟨(hkeep l').1.trans (bkeep l').1, (hkeep l').2.trans (bkeep l').2⟩
      · intro hsorted f hf
        simp only [inAckIntervalsGo]
        rintro (hin | hin)
        · exact bclr hsorted f (((hsub lvl).trans (List.Sublist.refl _)).subset hf) hin
        · exact hclr (List.Pairwise.sublist bsub hsorted) f hf hin
    · simp only [hR] at h
      cases h

theorem rtt_sample_getCtx (qc : QuicConn) (now d t : Nat) (l : Level) :
    getCtx (rtt_sample qc now d t) l = getCtx qc l := by
  obtain ⟨a, b, c, d', e, hs⟩ := rtt_sample_shape qc now d t
  rw [hs]
  cases l <;> rfl

theorem handle_ack_hok_facts (qc : QuicConn) (lvl : Level) (now : Nat) (ack : AckFrame)
    (q1 : QuicConn)
    (hsorted : (getCtx qc lvl).sent.Pairwise (fun f g => f.pnum ≤ g.pnum))
    (hINF : ack.largest ≠ INFTY)
    (h1 : handle_ack_frame qc lvl now ack = .hok q1) :
    ¬(ack.largest < ack.first_range) ∧
    ackMalformedGo (ack.largest - ack.first_range) ack.ranges = false ∧
    ∃ qcL stL, q1 = detect_lost qcL now (some stL) ∧
      (∀ l', List.Sublist (getCtx qcL l').sent (getCtx qc l').sent) ∧
      (getCtx qcL lvl).pnum = (getCtx qc lvl).pnum ∧
      ¬((getCtx qcL lvl).largest_ack < ack.largest) ∧
      (getCtx qcL lvl).largest_ack ≠ INFTY ∧
      (∀ f ∈ (getCtx qcL lvl).sent,
        ¬(ack.largest - ack.first_range ≤ f.pnum ∧ f.pnum ≤ ack.largest)) ∧
      (∀ f ∈ (getCtx qcL lvl).sent,
        ¬ inAckIntervalsGo (ack.largest - ack.first_range) ack.ranges f.pnum) := by
  simp only [handle_ack_frame] at h1
  by_cases h0 : ack.largest < ack.first_range
  · rw [if_pos h0] at h1
    cases h1
  rw [if_neg h0] at h1
  refine ⟨h0, ?_, ?_⟩
  case _ =>
    rcases hR : handle_ack_frame_range qc lvl now
        (ack.largest - ack.first_range) ack.largest
        { max_pn := INFTY, oldest := INFTY, newest := INFTY } with ⟨qcB, stB⟩ | qE
    all_goals simp only [hR] at h1
    · exact handleAckLoop_hok_wf lvl now ack.ranges _ _ _ _ h1
    · cases h1
  rcases hR : handle_ack_frame_range qc lvl now
      (ack.largest - ack.first_range) ack.largest
      { max_pn := INFTY, oldest := INFTY, newest := INFTY } with ⟨qcB, stB⟩ | qE
  · simp only [hR] at h1
    obtain ⟨bsub, both, bkeep, blr, bav, bclr⟩ :=
      range_ack_rok_facts qc lvl now _ _ _ qcB stB hR
    by_cases hupd : (getCtx qcB lvl).largest_ack < ack.largest ∨
        (getCtx qcB lvl).largest_ack = INFTY
    · rw [if_pos hupd] at h1
      have hCctx : ∀ l, getCtx
          (if stB.max_pn ≠ INFTY then
            rtt_sample (setCtx qcB lvl { getCtx qcB lvl with largest_ack := ack.largest })
              now ack.delay stB.max_pn
          else setCtx qcB lvl { getCtx qcB lvl with largest_ack := ack.largest }) l =
          getCtx (setCtx qcB lvl { getCtx qcB lvl with largest_ack := ack.largest }) l := by
        intro l
        split
        · exact rtt_sample_getCtx _ now ack.delay stB.max_pn l
        · rfl
      obtain ⟨qcL, stL, hq1, hsub, hkeep, hlr, hav, hclr⟩ :=
        handleAckLoop_hok_facts lvl now ack.ranges _ stB _ q1 h1
      have hCl : ∀ l', l' ≠ lvl → getCtx
          (if stB.max_pn ≠ INFTY then
            rtt_sample (setCtx qcB lvl { getCtx qcB lvl with largest_ack := ack.largest })
              now ack.delay stB.max_pn
          else setCtx qcB lvl { getCtx qcB lvl with largest_ack := ack.largest }) l' =
          getCtx qcB l' := by
        intro l' hll
        rw [hCctx l', getCtx_setCtx_ne _ _ _ _ (fun hd => hll hd.symm)]
      have hClvl : getCtx
          (if stB.max_pn ≠ INFTY then
            rtt_sample (setCtx qcB lvl { getCtx qcB lvl with largest_ack := ack.largest })
              now ack.delay stB.max_pn
          else setCtx qcB lvl { getCtx qcB lvl with largest_ack := ack.largest }) lvl =
          { getCtx qcB lvl with largest_ack := ack.largest } := by
        rw [hCctx lvl, getCtx_setCtx_self]
      refine ⟨qcL, stL, hq1, ?_, ?_, ?_, ?_, ?_, ?_⟩
      · intro l'
        by_cases hll : l' = lvl
        · subst hll
          have := hsub l'
          rw [hClvl] at this
          exact this.trans bsub
        · have := hsub l'
          rw [hCl l' hll, both l' hll] at this
          exact this
      · have := (hkeep lvl).2
        rw [hClvl] at this
        exact this.trans (bkeep lvl).2
      · have := (hkeep lvl).1
        rw [hClvl] at this
        rw [this]
        exact lt_irrefl _
      · have := (hkeep lvl).1
        rw [hClvl] at this
        rw [this]
        exact hINF
      · intro f hf
        have hfB : f ∈ (getCtx qcB lvl).sent := by
          have := hsub lvl
          rw [hClvl] at this
          exact this.subset hf
        exact bclr hsorted f hfB
      · intro f hf
        have hsB : (getCtx qcB lvl).sent.Pairwise (fun f g => f.pnum ≤ g.pnum) :=
          List.Pairwise.sublist bsub hsorted
        have hsC : ({ getCtx qcB lvl with largest_ack := ack.largest } :
            SendCtx).sent.Pairwise (fun f g => f.pnum ≤ g.pnum) := hsB
        have := hclr (by rw [hClvl]; exact hsC) f hf
        exact this
    · rw [if_neg hupd] at h1
      obtain ⟨qcL, stL, hq1, hsub, hkeep, hlr, hav, hclr⟩ :=
        handleAckLoop_hok_facts lvl now ack.ranges qcB stB _ q1 h1
      rw [not_or] at hupd
      refine ⟨qcL, stL, hq1, ?_, ?_, ?_, ?_, ?_, ?_⟩
      · intro l'
        by_cases hll : l' = lvl
        · subst hll
          exact (hsub l').trans bsub
        · rw [← both l' hll]
          exact hsub l'
      · exact ((hkeep lvl).2).trans (bkeep lvl).2
      · rw [(hkeep lvl).1]
        exact hupd.1
      · rw [(hkeep lvl).1]
        exact hupd.2
      · intro f hf
        exact bclr hsorted f ((hsub lvl).subset hf)
      · intro f hf
        exact hclr (List.Pairwise.sublist bsub hsorted) f hf
  · simp only [hR] at h1
    cases h1

theorem resend_latest (qc : QuicConn) (lvl : Level) (now : Nat) :
    (resend_frames qc lvl now).latest_rtt = qc.latest_rtt := by
  cases hs : (getCtx qc lvl).sent with
  | nil => rw [resend_frames_nil qc lvl now hs]
  | cons start rest =>
    obtain ⟨cg, p, fr, sa, hR⟩ := resend_frames_shape qc lvl now start rest hs
    rw [hR]
    cases lvl <;> rfl

theorem detectCtxGo_latest (lvl : Level) (now thr : Nat) :
    ∀ (fuel : Nat) (qc : QuicConn) (acc : LossAcc),
      (detectCtxGo lvl now thr fuel qc acc).1.latest_rtt = qc.latest_rtt := by
  intro fuel
  induction fuel with
  | zero => intro qc acc; rfl
  | succ n ih =>
    intro qc acc
    simp only [detectCtxGo]
    cases hs : (getCtx qc lvl).sent with
    | nil => rfl
    | cons start rest =>
      simp only []
      split
      · rfl
      · split
        · rfl
        · exact (ih (resend_frames qc lvl now) _).trans (resend_latest qc lvl now)

theorem detectOne_latest (lvl : Level) (now thr : Nat) (p : QuicConn × LossAcc) :
    (detectOne lvl now thr p).1.latest_rtt = p.1.latest_rtt := by
  unfold detectOne
  split
  · rfl
  · exact detectCtxGo_latest lvl now thr _ p.1 p.2

theorem detectWalk_latest (qc : QuicConn) (now : Nat) :
    (detectWalk qc now).1.latest_rtt = qc.latest_rtt := by
  unfold detectWalk
  exact (detectOne_latest .application now _ _).trans
    ((detectOne_latest .handshake now _ _).trans (detectOne_latest .initial now _ _))

theorem detectCtxGo_keep (lvl : Level) (now thr : Nat) :
    ∀ (fuel : Nat) (qc : QuicConn) (acc : LossAcc) (l' : Level),
      (getCtx (detectCtxGo lvl now thr fuel qc acc).1 l').largest_ack =
        (getCtx qc l').largest_ack ∧
      (getCtx (detectCtxGo lvl now thr fuel qc acc).1 l').pnum =
        (getCtx qc l').pnum := by
  intro fuel
  induction fuel with
  | zero => intro qc acc l'; exact ⟨rfl, rfl⟩
  | succ n ih =>
    intro qc acc l'
    simp only [detectCtxGo]
    cases hs : (getCtx qc lvl).sent with
    | nil => exact ⟨rfl, rfl⟩
    | cons start rest =>
      simp only []
      split
      · exact ⟨rfl, rfl⟩
      · split
        · exact ⟨rfl, rfl⟩
        · obtain ⟨i1, i2⟩ := ih (resend_frames qc lvl now) _ l'
          by_cases hll : l' = lvl
          · subst hll
            exact ⟨i1.trans (resend_largest_ack qc l' now),
                   i2.trans (resend_pnum qc l' now)⟩
          · have hro := resend_other qc lvl now l' (fun hd => hll hd.symm)
            exact ⟨i1.trans (by rw [hro]), i2.trans (by rw [hro])⟩

theorem detectOne_keep (lvl : Level) (now thr : Nat) (p : QuicConn × LossAcc) (l' : Level) :
    (getCtx (detectOne lvl now thr p).1 l').largest_ack = (getCtx p.1 l').largest_ack ∧
    (getCtx (detectOne lvl now thr p).1 l').pnum = (getCtx p.1 l').pnum := by
  unfold detectOne
  split
  · exact ⟨rfl, rfl⟩
  · exact detectCtxGo_keep lvl now thr _ p.1 p.2 l'

theorem detectWalk_keep (qc : QuicConn) (now : Nat) (l' : Level) :
    (getCtx (detectWalk qc now).1 l').largest_ack = (getCtx qc l').largest_ack ∧
    (getCtx (detectWalk qc now).1 l').pnum = (getCtx qc l').pnum := by
  unfold detectWalk
  obtain ⟨a1, a2⟩ := detectOne_keep Level.initial now (lost_threshold qc)
    (qc, { nlost := 0, oldest := INFTY, newest := INFTY }) l'
  obtain ⟨b1, b2⟩ := detectOne_keep Level.handshake now (lost_threshold qc)
    (detectOne Level.initial now (lost_threshold qc)
      (qc, { nlost := 0, oldest := INFTY, newest := INFTY })) l'
  obtain ⟨c1, c2⟩ := detectOne_keep Level.application now (lost_threshold qc)
    (detectOne Level.handshake now (lost_threshold qc)
      (detectOne Level.initial now (lost_threshold qc)
        (qc, { nlost := 0, oldest := INFTY, newest := INFTY }))) l'
  exact ⟨(c1.trans b1).trans a1, (c2.trans b2).trans a2⟩

theorem lost_threshold_congr (a b : QuicConn) (h1 : a.latest_rtt = b.latest_rtt)
    (h2 : a.avg_rtt = b.avg_rtt) : lost_threshold a = lost_threshold b := by
  simp only [lost_threshold, h1, h2]

theorem set_lost_timer_rtt (qc : QuicConn) (now : Nat) :
    (set_lost_timer qc now).latest_rtt = qc.latest_rtt ∧
    (set_lost_timer qc now).avg_rtt = qc.avg_rtt := by
  obtain ⟨t, ht⟩ := set_lost_timer_shape qc now
  rw [ht]
  exact ⟨rfl, rfl⟩

theorem persistent_congestion_rtt (qc : QuicConn) (now : Nat) :
    (persistent_congestion qc now).latest_rtt = qc.latest_rtt ∧
    (persistent_congestion qc now).avg_rtt = qc.avg_rtt :=
  ⟨rfl, rfl⟩

theorem detect_lost_rtt (qc : QuicConn) (now : Nat) (st : Option AckStat) :
    (detect_lost qc now st).latest_rtt = qc.latest_rtt ∧
    (detect_lost qc now st).avg_rtt = qc.avg_rtt := by
  simp only [detect_lost]
  cases st with
  | none =>
    simp only []
    exact ⟨(set_lost_timer_rtt _ now).1.trans (detectWalk_latest qc now),
           (set_lost_timer_rtt _ now).2.trans (detectWalk_scalars qc now).1⟩
  | some s =>
    simp only []
    split
    · split
      · exact ⟨(set_lost_timer_rtt _ now).1.trans
          ((persistent_congestion_rtt _ now).1.trans (detectWalk_latest qc now)),
          (set_lost_timer_rtt _ now).2.trans
          ((persistent_congestion_rtt _ now).2.trans (detectWalk_scalars qc now).1)⟩
      · exact ⟨(set_lost_timer_rtt _ now).1.trans (detectWalk_latest qc now),
               (set_lost_timer_rtt _ now).2.trans (detectWalk_scalars qc now).1⟩
    · exact ⟨(set_lost_timer_rtt _ now).1.trans (detectWalk_latest qc now),
             (set_lost_timer_rtt _ now).2.trans (detectWalk_scalars qc now).1⟩

theorem detect_lost_threshold_eq (qc : QuicConn) (now : Nat) (st : Option AckStat) :
    lost_threshold (detect_lost qc now st) = lost_threshold qc :=
  lost_threshold_congr _ _ (detect_lost_rtt qc now st).1 (detect_lost_rtt qc now st).2

theorem detect_lost_keep (qc : QuicConn) (now : Nat) (st : Option AckStat) (l : Level) :
    (getCtx (detect_lost qc now st) l).largest_ack = (getCtx qc l).largest_ack ∧
    (getCtx (detect_lost qc now st) l).pnum = (getCtx qc l).pnum := by
  rw [detect_lost_getCtx_walk]
  exact detectWalk_keep qc now l

theorem detect_lost_timer_form (qc : QuicConn) (now : Nat) (st : Option AckStat) :
    ∃ m, detect_lost qc now st = set_lost_timer m now :=
  ⟨_, rfl⟩

theorem set_lost_timer_timer (qc : QuicConn) (x : Option (TimerKind × Nat)) (now : Nat) :
    set_lost_timer { qc with timer := x } now = set_lost_timer qc now := by
  cases qc
  rfl

theorem set_lost_timer_idem (qc : QuicConn) (now : Nat) :
    set_lost_timer (set_lost_timer qc now) now = set_lost_timer qc now := by
  obtain ⟨t, ht⟩ := set_lost_timer_shape qc now
  rw [ht, set_lost_timer_timer]
  exact ht

theorem detectOne_fixed (lvl : Level) (now thr : Nat) (qc : QuicConn) (acc : LossAcc)
    (h : (getCtx qc lvl).largest_ack = INFTY ∨ (getCtx qc lvl).sent = [] ∨
      ∃ x xs, (getCtx qc lvl).sent = x :: xs ∧
        lostCond (getCtx qc lvl).largest_ack thr now x = false) :
    detectOne lvl now thr (qc, acc) = (qc, acc) := by
  unfold detectOne
  by_cases hinf : (getCtx (qc, acc).1 lvl).largest_ack = INFTY
  · rw [if_pos hinf]
  · rw [if_neg hinf]
    rcases h with h | h | ⟨x, xs, hs, hc⟩
    · exact absurd h hinf
    · rw [h]
      rfl
    · have hstep : ∀ n, detectCtxGo lvl now thr (Nat.succ n) qc acc = (qc, acc) := by
        intro n
        simp only [detectCtxGo, hs]
        by_cases hlt : (getCtx qc lvl).largest_ack < x.pnum
        · rw [if_pos hlt]
        · have hge : x.pnum ≤ (getCtx qc lvl).largest_ack := Nat.le_of_not_lt hlt
          simp only [lostCond] at hc
          rw [decide_eq_true hge, Bool.true_and, Bool.or_eq_false_iff] at hc
          obtain ⟨ha, hb⟩ := hc
          rw [decide_eq_false_iff_not] at ha hb
          rw [if_neg hlt, if_pos ⟨lt_of_not_le ha, by omega⟩]
      rw [hs]
      exact hstep xs.length

theorem detectWalk_fixed (qc : QuicConn) (now : Nat)
    (h : ∀ l', (getCtx qc l').largest_ack = INFTY ∨ (getCtx qc l').sent = [] ∨
      ∃ x xs, (getCtx qc l').sent = x :: xs ∧
        lostCond (getCtx qc l').largest_ack (lost_threshold qc) now x = false) :
    detectWalk qc now = (qc, { nlost := 0, oldest := INFTY, newest := INFTY }) := by
  simp only [detectWalk]
  rw [detectOne_fixed .initial now _ qc _ (h .initial),
      detectOne_fixed .handshake now _ qc _ (h .handshake),
      detectOne_fixed .application now _ qc _ (h .application)]

theorem detect_lost_fixed (qc : QuicConn) (now : Nat) (st : AckStat)
    (hwalk : detectWalk qc now = (qc, { nlost := 0, oldest := INFTY, newest := INFTY }))
    (htimer : set_lost_timer qc now = qc) :
    detect_lost qc now (some st) = qc := by
  simp only [detect_lost, hwalk]
  rw [if_neg (by rintro ⟨hc, -⟩; omega)]
  exact htimer

theorem handleAckLoop_noop (lvl : Level) (now : Nat) :
    ∀ (ranges : List (Nat × Nat)) (qc : QuicConn) (st : AckStat) (mn : Nat),
      ackMalformedGo mn ranges = false →
      mn < (getCtx qc lvl).pnum →
      (∀ f ∈ (getCtx qc lvl).sent, ¬ inAckIntervalsGo mn ranges f.pnum) →
      ∃ st', handleAckLoop lvl now qc st mn ranges =
        .hok (detect_lost qc now (some st')) := by
  intro ranges
  induction ranges with
  | nil =>
    intro qc st mn _ _ _
    exact ⟨st, rfl⟩
  | cons p rest ih =>
    intro qc st mn hwf hmn hno
    rcases p with ⟨gap, range⟩
    simp only [ackMalformedGo] at hwf
    by_cases h1 : mn < gap + 2
    · rw [if_pos h1] at hwf
      cases hwf
    rw [if_neg h1] at hwf
    by_cases h2 : mn - gap - 2 < range
    · rw [if_pos h2] at hwf
      cases hwf
    rw [if_neg h2] at hwf
    simp only [handleAckLoop]
    rw [if_neg h1, if_neg h2]
    have hnone : ∀ f ∈ (getCtx qc lvl).sent,
        ¬(mn - gap - 2 - range ≤ f.pnum ∧ f.pnum ≤ mn - gap - 2) := by
      intro f hf hc
      exact hno f hf (Or.inl hc)
    have hra : handle_ack_frame_range qc lvl now (mn - gap - 2 - range) (mn - gap - 2) st =
        .rok qc { st with max_pn := INFTY } := by
      rw [range_ack_none qc lvl now _ _ st hnone, if_pos (by omega)]
    simp only [hra]
    exact ih qc _ _ hwf (by omega) (fun f hf hc => hno f hf (Or.inr hc))

/-- **C9 (counterexample).**  A structurally well-formed ACK whose `largest`
names a packet that was never sent (`largest = 10`, `ctx.pnum = 6`) breaks
idempotence: the first `handle_ack_frame` call succeeds (packet 5 lies in
the range 5..10 and is acknowledged), but re-processing the very same frame
fails with PROTOCOL_VIOLATION ("unknown packet number") because now no
frame falls in the range and `largest ≥ ctx.pnum` — so the second call is
not a duplicate-ACK no-op as claimed. -/
theorem C9_counterexample :
    isHok (handle_ack_frame c9conn .application 100 ack9) = true ∧
    hres_error (handle_ack_frame (hres_conn (handle_ack_frame c9conn .application 100 ack9))
        .application 100 ack9) = some (some .protocolViolation) := by
  exact ⟨by decide, by decide⟩

/-- **C9 (amended).**  Processing the same ACK frame twice in succession is
idempotent provided every acknowledged packet number was actually assigned
(`ack.largest < ctx.pnum`, with `ack.largest` a genuine packet number, not
the unset sentinel), the send queues are ordered by packet number and frames
of one packet share their send time: when the first call succeeds the second
call succeeds as a duplicate-ACK no-op and returns the *identical*
connection — send contexts, `largest_ack`, congestion state, RTT estimators
and the loss timer all unchanged.  Without the `largest < pnum` bound the
second call can instead fail with PROTOCOL_VIOLATION. -/
theorem C9_ack_idempotent (qc : QuicConn) (lvl : Level) (now : Nat) (ack : AckFrame)
    (qc1 : QuicConn)
    (hsorted : (getCtx qc lvl).sent.Pairwise (fun f g => f.pnum ≤ g.pnum))
    (hsame : ∀ l' ∈ [Level.initial, Level.handshake, Level.application],
        ∀ f ∈ (getCtx qc l').sent, ∀ g ∈ (getCtx qc l').sent,
          f.pnum = g.pnum → f.send_time = g.send_time)
    (hpnum : ack.largest < (getCtx qc lvl).pnum)
    (hINF : ack.largest ≠ INFTY)
    (h1 : handle_ack_frame qc lvl now ack = .hok qc1) :
    handle_ack_frame qc1 lvl now ack = .hok qc1 := by
  have hsame' : ∀ l', ∀ f ∈ (getCtx qc l').sent, ∀ g ∈ (getCtx qc l').sent,
      f.pnum = g.pnum → f.send_time = g.send_time := by
    intro l'
    exact hsame l' (by cases l' <;> simp)
  obtain ⟨h0, hwf, qcL, stL, hq1, hsub, hpn, hlal, hlaINF, hfirst, hints⟩ :=
    handle_ack_hok_facts qc lvl now ack qc1 hsorted hINF h1
  have hsameL : ∀ l', ∀ f ∈ (getCtx qcL l').sent, ∀ g ∈ (getCtx qcL l').sent,
      f.pnum = g.pnum → f.send_time = g.send_time := by
    intro l' f hf g hg
    exact hsame' l' f ((hsub l').subset hf) g ((hsub l').subset hg)
  have hwalkctx : ∀ l, getCtx qc1 l = getCtx (detectWalk qcL now).1 l := by
    intro l
    rw [hq1]
    exact detect_lost_getCtx_walk qcL now (some stL) l
  have hkeep1 : ∀ l, (getCtx qc1 l).largest_ack = (getCtx qcL l).largest_ack ∧
      (getCtx qc1 l).pnum = (getCtx qcL l).pnum := by
    intro l
    rw [hq1]
    exact detect_lost_keep qcL now (some stL) l
  have hthr : lost_threshold qc1 = lost_threshold qcL := by
    rw [hq1]
    exact detect_lost_threshold_eq qcL now (some stL)
  have hpnum1 : ack.largest < (getCtx qc1 lvl).pnum := by
    rw [(hkeep1 lvl).2, hpn]
    exact hpnum
  have hla1 : ¬((getCtx qc1 lvl).largest_ack < ack.largest ∨
      (getCtx qc1 lvl).largest_ack = INFTY) := by
    rw [(hkeep1 lvl).1]
    rintro (hc | hc)
    · exact hlal hc
    · exact hlaINF hc
  have hs1 : (getCtx qc1 lvl).sent =
      (getCtx qcL lvl).sent.dropWhile
        (lostCond (getCtx qcL lvl).largest_ack (lost_threshold qcL) now) := by
    rw [hwalkctx lvl]
    exact detectWalk_sent qcL now lvl hlaINF (hsameL lvl)
  have hsub1 : ∀ f ∈ (getCtx qc1 lvl).sent, f ∈ (getCtx qcL lvl).sent := by
    intro f hf
    rw [hs1] at hf
    exact (List.dropWhile_sublist _).subset hf
  have hnone1 : ∀ f ∈ (getCtx qc1 lvl).sent,
      ¬(ack.largest - ack.first_range ≤ f.pnum ∧ f.pnum ≤ ack.largest) :=
    fun f hf => hfirst f (hsub1 f hf)
  have hints1 : ∀ f ∈ (getCtx qc1 lvl).sent,
      ¬ inAckIntervalsGo (ack.largest - ack.first_range) ack.ranges f.pnum :=
    fun f hf => hints f (hsub1 f hf)
  obtain ⟨qcM, hM⟩ := detect_lost_timer_form qcL now (some stL)
  have htimer : set_lost_timer qc1 now = qc1 := by
    rw [hq1, hM]
    exact set_lost_timer_idem qcM now
  have hwalkfix : detectWalk qc1 now =
      (qc1, { nlost := 0, oldest := INFTY, newest := INFTY }) := by
    apply detectWalk_fixed
    intro l'
    by_cases hinf : (getCtx qcL l').largest_ack = INFTY
    · left
      rw [(hkeep1 l').1]
      exact hinf
    · have hsl' : (getCtx qc1 l').sent =
          (getCtx qcL l').sent.dropWhile
            (lostCond (getCtx qcL l').largest_ack (lost_threshold qcL) now) := by
        rw [hwalkctx l']
        exact detectWalk_sent qcL now l' hinf (hsameL l')
      cases hd : (getCtx qc1 l').sent with
      | nil => exact Or.inr (Or.inl rfl)
      | cons x xs =>
        refine Or.inr (Or.inr ⟨x, xs, rfl, ?_⟩)
        rw [(hkeep1 l').1, hthr]
        exact dropWhile_head_false _ _ x xs (by rw [← hsl']; exact hd)
  simp only [handle_ack_frame]
  rw [if_neg h0]
  have hra : handle_ack_frame_range qc1 lvl now (ack.largest - ack.first_range)
      ack.largest { max_pn := INFTY, oldest := INFTY, newest := INFTY } =
      .rok qc1 { max_pn := INFTY, oldest := INFTY, newest := INFTY } := by
    rw [range_ack_none qc1 lvl now _ _ _ hnone1, if_pos hpnum1]
  simp only [hra]
  rw [if_neg hla1]
  obtain ⟨st', hloop⟩ := handleAckLoop_noop lvl now ack.ranges qc1
    { max_pn := INFTY, oldest := INFTY, newest := INFTY }
    (ack.largest - ack.first_range) hwf
    (Nat.lt_of_le_of_lt (Nat.sub_le _ _) hpnum1) hints1
  rw [hloop, detect_lost_fixed qc1 now st' hwalkfix htimer]

theorem C9_witness :
    handle_ack_frame (hres_conn (handle_ack_frame c9wconn .application 100 ack9w))
        .application 100 ack9w =
      .hok (hres_conn (handle_ack_frame c9wconn .application 100 ack9w)) :=
  C9_ack_idempotent c9wconn .application 100 ack9w
    (hres_conn (handle_ack_frame c9wconn .application 100 ack9w))
    (by decide) (by decide) (by decide) (by decide) (by decide)
